import Mathlib

/-!
# GPU metrics of the Slurm exporter (`gpus.go`)

A shallow embedding of the GRES / TRES parsers and of the metric aggregation of
`gpus.go`, followed by theorems about them.

Conventions of the embedding.

* A Go `string` is the list of its characters (`List Char`); command outputs are taken
  to be valid UTF-8, on which splitting at an ASCII byte and splitting at the
  corresponding character agree.
* A Go run-time panic (index out of range) is the result `none`.
* A `float64` is a value of `F64`: a rational number, an infinity or NaN.  Every
  arithmetic result is rounded to the nearest binary64 value, ties to even
  (`roundF64`).  The sign of a zero is not tracked.
* `strconv.ParseFloat` follows `atof.go` of the Go library (decimal and hexadecimal
  numerals, underscores, `inf`, `infinity` and `nan`): a syntax error comes with the
  value 0, a range error with an infinity.
* The two external commands are not run: the functions that call `Execute` take the
  command output as an argument.
-/

namespace SlurmGPU

/-! ## The `strings` package -/

/-- Cut a string at every character satisfying `p`; the pieces between the cuts are
returned in order, empty pieces included, so the result is never empty. -/
def splitBy (p : Char → Bool) : List Char → List (List Char)
  | [] => [[]]
  | c :: cs =>
    if p c then [] :: splitBy p cs
    else
      match splitBy p cs with
      | [] => [[c]]
      | f :: fs => (c :: f) :: fs

/-- `strings.Split(s, sep)` for a separator `sep` of one character, which is how the
program calls it (`","`, `":"`, `"="`, `"\n"`). -/
def Split (s : List Char) (sep : Char) : List (List Char) :=
  splitBy (fun c => decide (c = sep)) s

/-- `strings.Trim(s, cutset)` for a cutset of one character: all leading and all
trailing occurrences are removed. -/
def Trim (s : List Char) (cut : Char) : List Char :=
  (s.dropWhile (fun c => decide (c = cut))).rdropWhile (fun c => decide (c = cut))

/-- `unicode.IsSpace`: the white space characters of Go. -/
def isSpace (c : Char) : Bool :=
  decide (c.toNat ∈ [0x09, 0x0A, 0x0B, 0x0C, 0x0D, 0x20, 0x85, 0xA0, 0x1680,
    0x2028, 0x2029, 0x202F, 0x205F, 0x3000]) || (decide (0x2000 ≤ c.toNat) && decide (c.toNat ≤ 0x200A))

/-- `strings.Fields(s)`: the maximal runs of non-space characters, in order. -/
def Fields (s : List Char) : List (List Char) :=
  (splitBy isSpace s).filter (fun f => !f.isEmpty)

/-! ## The `regexp` package, for the two patterns of the program -/

/-- One piece of a pattern: a literal character, or a literal character under `*`. -/
inductive RePiece
  | lit (c : Char)
  | star (c : Char)
  deriving DecidableEq, Repr

/-- Parse a pattern made of literal characters and of `*` applied to the character
before it.  The patterns of the program, `gpu:*` and `gres/gpu=*`, have this shape. -/
def compile : List Char → List RePiece
  | [] => []
  | [c] => [RePiece.lit c]
  | c :: d :: rest =>
    if d = '*' then RePiece.star c :: compile rest
    else RePiece.lit c :: compile (d :: rest)

/-- Matching of `c*` followed by the rest of the pattern, whose matcher is `k`: zero
or more characters `c` are read before `k` is tried. -/
def matchStar (c : Char) (k : List Char → Bool) : List Char → Bool
  | [] => k []
  | x :: xs => k (x :: xs) || (decide (x = c) && matchStar c k xs)

/-- Does the pattern match a prefix of the text? -/
def matchHere : List RePiece → List Char → Bool
  | [], _ => true
  | RePiece.lit c :: ps, s =>
    match s with
    | [] => false
    | x :: xs => decide (x = c) && matchHere ps xs
  | RePiece.star c :: ps, s => matchStar c (matchHere ps) s

/-- Does the pattern match somewhere in the text (an unanchored search)? -/
def matchAnywhere (ps : List RePiece) : List Char → Bool
  | [] => matchHere ps []
  | x :: xs => matchHere ps (x :: xs) || matchAnywhere ps xs

/-- `regexp.Match(pattern, []byte(v))`; the error result is nil for a pattern that
compiles, and the program drops it. -/
def regexpMatch (pattern : String) (v : List Char) : Bool :=
  matchAnywhere (compile pattern.toList) v

/-! ## `float64` -/

/-- Values of type `float64`. -/
inductive F64
  | fin (q : ℚ)
  | inf (neg : Bool)
  | nan
  deriving DecidableEq

/-- Nearest natural number to a non-negative rational, ties to the even one. -/
def roundHalfEven (x : ℚ) : ℕ :=
  if x - ⌊x⌋₊ < 1 / 2 then ⌊x⌋₊
  else if 1 / 2 < x - ⌊x⌋₊ then ⌊x⌋₊ + 1
  else if ⌊x⌋₊ % 2 = 0 then ⌊x⌋₊ else ⌊x⌋₊ + 1

/-- The rational number `b ^ z` for an integer exponent `z`. -/
def zpowQ (b : ℕ) (z : ℤ) : ℚ :=
  if 0 ≤ z then ((b ^ z.toNat : ℕ) : ℚ) else 1 / ((b ^ (-z).toNat : ℕ) : ℚ)

/-- Integer part of the binary logarithm of a positive rational `a`: the `e` with
`2 ^ e ≤ a < 2 ^ (e + 1)`. -/
def ilog2 (a : ℚ) : ℤ :=
  if 1 ≤ a then (Nat.log2 ⌊a⌋₊ : ℤ)
  else if ⌈a⁻¹⌉₊ ≤ 1 then 0
  else -((Nat.log2 (⌈a⁻¹⌉₊ - 1) : ℤ) + 1)

/-- Binary exponent of the binade of a positive rational, not below the exponent of
the subnormal numbers. -/
def binade (a : ℚ) : ℤ := max (ilog2 a) (-1022)

/-- Magnitude of the binary64 value nearest to the magnitude of `q` (53 significant
bits, ties to even), before the overflow test. -/
def roundMag (q : ℚ) : ℚ :=
  roundHalfEven (|q| / zpowQ 2 (binade |q| - 52)) * zpowQ 2 (binade |q| - 52)

/-- Rounding of an exact result to `float64`: nearest value, ties to even, and an
infinity when the rounded magnitude reaches `2 ^ 1024`. -/
def roundF64 (q : ℚ) : F64 :=
  if zpowQ 2 1024 ≤ roundMag q then F64.inf (decide (q < 0))
  else F64.fin (if q < 0 then -roundMag q else roundMag q)

namespace F64

/-- Negation. -/
def neg : F64 → F64
  | fin q => fin (-q)
  | inf s => inf (!s)
  | nan => nan

/-- Addition (`+`, `+=`). -/
def add : F64 → F64 → F64
  | fin a, fin b => roundF64 (a + b)
  | fin _, inf s => inf s
  | inf s, fin _ => inf s
  | inf s, inf t => if s = t then inf s else nan
  | _, _ => nan

/-- Subtraction (`-`). -/
def sub (x y : F64) : F64 := add x (neg y)

/-- Division (`/`).  A zero divisor is taken to be `+0`: the only divisor of the
program is a sum started at `0.0`, which is never `-0`. -/
def div : F64 → F64 → F64
  | fin a, fin b =>
    if b = 0 then (if a = 0 then nan else inf (decide (a < 0))) else roundF64 (a / b)
  | fin _, inf _ => fin 0
  | inf s, fin b => inf (xor s (decide (b < 0)))
  | _, _ => nan

/-- The comparison `x > 0` of Go. -/
def isPos : F64 → Bool
  | fin q => decide (0 < q)
  | inf s => !s
  | nan => false

/-- The comparison `x >= 0` of Go. -/
def isNonneg : F64 → Bool
  | fin q => decide (0 ≤ q)
  | inf s => !s
  | nan => false

end F64

/-! ## `strconv.ParseFloat` -/

/-- The two kinds of error of `strconv.ParseFloat`. -/
inductive NumError
  | ErrSyntax
  | ErrRange
  deriving DecidableEq, Repr

/-- `special` of `atof.go`: an optionally signed `inf` or `infinity`, or `nan`, in any
letter case, at the start of the text; the value and the text left over. -/
def special (s : List Char) : Option (F64 × List Char) :=
  let infOf (neg : Bool) (t : List Char) : Option (F64 × List Char) :=
    if (t.take 8).map Char.toLower = "infinity".toList then some (F64.inf neg, t.drop 8)
    else if (t.take 3).map Char.toLower = "inf".toList then some (F64.inf neg, t.drop 3)
    else none
  match s with
  | [] => none
  | '+' :: t => infOf false t
  | '-' :: t => infOf true t
  | c :: t =>
    if c = 'i' ∨ c = 'I' then infOf false (c :: t)
    else if (c = 'n' ∨ c = 'N') ∧ (s.take 3).map Char.toLower = "nan".toList then
      some (F64.nan, s.drop 3)
    else none

/-- Value of a digit of the mantissa: a decimal digit, or with `hex` also a letter
`a`-`f` or `A`-`F`. -/
def digitVal (hex : Bool) (c : Char) : Option ℕ :=
  if '0' ≤ c ∧ c ≤ '9' then some (c.toNat - '0'.toNat)
  else if hex ∧ 'a' ≤ c ∧ c ≤ 'f' then some (c.toNat - 'a'.toNat + 10)
  else if hex ∧ 'A' ≤ c ∧ c ≤ 'F' then some (c.toNat - 'A'.toNat + 10)
  else none

/-- State of the digit loop of `readFloat`: the mantissa read so far (all its digits),
the number of digits read after the point, and the two flags of the loop. -/
structure Digits where
  mant : ℕ
  frac : ℕ
  sawdot : Bool
  sawdigits : Bool
  deriving DecidableEq, Repr

/-- The digit loop of `readFloat`, in base 16 when `hex` and in base 10 otherwise:
digits, underscores and at most one point are read; the text left over is returned. -/
def readDigits (hex : Bool) : Digits → List Char → Digits × List Char
  | st, [] => (st, [])
  | st, c :: cs =>
    if c = '_' then readDigits hex st cs
    else if c = '.' then
      if st.sawdot then (st, c :: cs)
      else readDigits hex { st with sawdot := true } cs
    else
      match digitVal hex c with
      | some d =>
        readDigits hex
          { mant := st.mant * (if hex then 16 else 10) + d,
            frac := if st.sawdot then st.frac + 1 else st.frac,
            sawdot := st.sawdot, sawdigits := true } cs
      | none => (st, c :: cs)

/-- The exponent loop of `readFloat`: decimal digits and underscores; the exponent
stops growing once it has reached 10000. -/
def readExpDigits : ℕ → List Char → ℕ × List Char
  | e, [] => (e, [])
  | e, c :: cs =>
    if c = '_' then readExpDigits e cs
    else if '0' ≤ c ∧ c ≤ '9' then
      readExpDigits (if e < 10000 then e * 10 + (c.toNat - '0'.toNat) else e) cs
    else (e, c :: cs)

/-- The exponent part of `readFloat`, read after the exponent letter: an optional
sign and at least one digit.  `none` is a syntax error. -/
def readExponent (s : List Char) : Option (ℤ × List Char) :=
  let digits (sign : ℤ) (t : List Char) : Option (ℤ × List Char) :=
    match t with
    | [] => none
    | c :: _ =>
      if '0' ≤ c ∧ c ≤ '9' then
        some (sign * ((readExpDigits 0 t).1 : ℤ), (readExpDigits 0 t).2)
      else none
  match s with
  | [] => none
  | '+' :: t => digits 1 t
  | '-' :: t => digits (-1) t
  | _ => digits 1 s

/-- The loop of `underscoreOK` of `atoi.go`: `saw` is the class of the last character
seen (`0` for a digit, `_` for an underscore, `!` for another one, `^` at the start). -/
def underscoreLoop (hex : Bool) : Char → List Char → Bool
  | saw, [] => decide (saw ≠ '_')
  | saw, c :: cs =>
    if (digitVal hex c).isSome then underscoreLoop hex '0' cs
    else if c = '_' then
      if saw ≠ '0' then false else underscoreLoop hex '_' cs
    else if saw = '_' then false
    else underscoreLoop hex '!' cs

/-- `underscoreOK` of `atoi.go`: underscores stand only between digits, or between a
base prefix and a digit. -/
def underscoreOK (s : List Char) : Bool :=
  let t := match s with
    | '+' :: t => t
    | '-' :: t => t
    | _ => s
  match t with
  | '0' :: p :: u =>
    if p.toLower = 'b' ∨ p.toLower = 'o' ∨ p.toLower = 'x' then
      underscoreLoop (decide (p.toLower = 'x')) '0' u
    else underscoreLoop false '^' t
  | _ => underscoreLoop false '^' t

/-- Does the numeral start with a minus sign? -/
def isNeg (s : List Char) : Bool :=
  match s with
  | '-' :: _ => true
  | _ => false

/-- The numeral after its optional sign. -/
def dropSign (s : List Char) : List Char :=
  match s with
  | '+' :: t => t
  | '-' :: t => t
  | _ => s

/-- The test for a hexadecimal numeral in `readFloat`: `0x` or `0X` with at least one
character after it. -/
def hexPrefix (t : List Char) : Bool :=
  match t with
  | '0' :: x :: _ :: _ => decide (x = 'x' ∨ x = 'X')
  | _ => false

/-- The optional exponent of `readFloat`, at the text left by the digit loop: the
letter is `p` for a hexadecimal numeral, which must have an exponent, and `e`
otherwise.  The result is the exponent and the text left over. -/
def readExpPart (hex : Bool) (rest : List Char) : Option (ℤ × List Char) :=
  match rest with
  | c :: r =>
    if (hex ∧ (c = 'p' ∨ c = 'P')) ∨ (¬ hex ∧ (c = 'e' ∨ c = 'E')) then readExponent r
    else if hex then none
    else some (0, rest)
  | [] => if hex then none else some (0, [])

/-- `readFloat` of `atof.go` on a text that must be read to its end: the exact value
of a decimal or hexadecimal floating-point numeral, or `none` when the text is not
one.  (Go cuts the mantissa after 19 digits and then rounds with the digits it cut
taken into account, so the value it rounds is the exact one.) -/
def readFloat (s : List Char) : Option ℚ :=
  let hex := hexPrefix (dropSign s)
  let body := if hex then (dropSign s).drop 2 else dropSign s
  let st := (readDigits hex ⟨0, 0, false, false⟩ body).1
  let rest := (readDigits hex ⟨0, 0, false, false⟩ body).2
  if ¬ st.sawdigits then none
  else
    match readExpPart hex rest with
    | none => none
    | some (e, rest2) =>
      if rest2 ≠ [] then none
      else if '_' ∈ s ∧ ¬ underscoreOK s then none
      else
        let mag : ℚ :=
          if hex then (st.mant : ℚ) * zpowQ 2 (e - 4 * (st.frac : ℤ))
          else (st.mant : ℚ) * zpowQ 10 (e - (st.frac : ℤ))
        some (if isNeg s then -mag else mag)

/-- `strconv.ParseFloat(s, 64)`: the value and the error.  A text that is not a
numeral gives `0` and `ErrSyntax`; a numeral too large for `float64` gives an
infinity and `ErrRange`; any other numeral gives the nearest `float64`. -/
def ParseFloat (s : List Char) : F64 × Option NumError :=
  match special s with
  | some (v, rest) =>
    if rest = [] then (v, none) else (F64.fin 0, some NumError.ErrSyntax)
  | none =>
    match readFloat s with
    | none => (F64.fin 0, some NumError.ErrSyntax)
    | some q =>
      match roundF64 q with
      | F64.inf neg => (F64.inf neg, some NumError.ErrRange)
      | v => (v, none)

/-! ## The program: `gpus.go` -/

/-- The struct `GPUsMetrics`. -/
structure GPUsMetrics where
  alloc : F64
  idle : F64
  total : F64
  utilization : F64
  deriving DecidableEq

/-- The double quote character, the cutset of both calls of `strings.Trim`. -/
def dquote : Char := Char.ofNat 34

/-- The newline character, the separator of the lines of a command output. -/
def newline : Char := Char.ofNat 10

/-- The loop of `ReturnGPUCountFromGres` over the entries of the descriptor, with the
current value of `node_gpus`; it ends at the first entry the pattern matches
(`break`).  Indexing a missing field is a panic. -/
def gresLoop (node_gpus : F64) : List (List Char) → Option F64
  | [] => some node_gpus
  | v :: vs =>
    if regexpMatch "gpu:*" v then
      if (Split v ':').length > 2 then
        ((Split v ':')[2]?).map (fun f => (ParseFloat f).1)
      else
        ((Split v ':')[1]?).map (fun f => (ParseFloat f).1)
    else gresLoop node_gpus vs

/-- `ReturnGPUCountFromGres(gres)`. -/
def ReturnGPUCountFromGres (gres : List Char) : Option F64 :=
  gresLoop (F64.fin 0) (Split gres ',')

/-- The loop of `ParseAllocTRES` over the entries of the line, with the current value
of `num_gpus`; it ends at the first entry the pattern matches (`break`). -/
def tresLoop (num_gpus : F64) : List (List Char) → Option F64
  | [] => some num_gpus
  | v :: vs =>
    if regexpMatch "gres/gpu=*" v then
      ((Split v '=')[1]?).map (fun f => (ParseFloat f).1)
    else tresLoop num_gpus vs

/-- `ParseAllocTRES(tresline)`. -/
def ParseAllocTRES (tresline : List Char) : Option F64 :=
  tresLoop (F64.fin 0) (Split tresline ',')

/-- The loop of `ParseAllocatedGPUs` over the lines of the output of `squeue`, with
the current value of `num_gpus`. -/
def allocLoop (num_gpus : F64) : List (List Char) → Option F64
  | [] => some num_gpus
  | line :: rest =>
    if line.length > 0 then
      match ParseAllocTRES (Trim line dquote) with
      | none => none
      | some job_gpus => allocLoop (F64.add num_gpus job_gpus) rest
    else allocLoop num_gpus rest

/-- `ParseAllocatedGPUs()`, as a function of the output of the `squeue` command. -/
def ParseAllocatedGPUs (output : List Char) : Option F64 :=
  if output.length > 0 then allocLoop (F64.fin 0) (Split output newline)
  else some (F64.fin 0)

/-- The inner loop of `ParseTotalGPUs` over the entries of one descriptor, with the
current value of `num_gpus`: the count of the first entry the pattern matches is
added to it. -/
def totalEntries (num_gpus : F64) : List (List Char) → Option F64
  | [] => some num_gpus
  | v :: vs =>
    if regexpMatch "gpu:*" v then
      if (Split v ':').length > 2 then
        ((Split v ':')[2]?).map (fun f => F64.add num_gpus (ParseFloat f).1)
      else
        ((Split v ':')[1]?).map (fun f => F64.add num_gpus (ParseFloat f).1)
    else totalEntries num_gpus vs

/-- The outer loop of `ParseTotalGPUs` over the lines of the output of `sinfo`, with
the current value of `num_gpus`.  The descriptor is the second field of the line;
a line without one is a panic. -/
def totalLoop (num_gpus : F64) : List (List Char) → Option F64
  | [] => some num_gpus
  | line :: rest =>
    if line.length > 0 then
      match (Fields (Trim line dquote))[1]? with
      | none => none
      | some descriptor =>
        match totalEntries num_gpus (Split descriptor ',') with
        | none => none
        | some n => totalLoop n rest
    else totalLoop num_gpus rest

/-- `ParseTotalGPUs()`, as a function of the output of the `sinfo` command. -/
def ParseTotalGPUs (output : List Char) : Option F64 :=
  if output.length > 0 then totalLoop (F64.fin 0) (Split output newline)
  else some (F64.fin 0)

/-- `ParseGPUsMetrics()`, as a function of the outputs of `sinfo` and of `squeue`. -/
def ParseGPUsMetrics (sinfo squeue : List Char) : Option GPUsMetrics :=
  match ParseTotalGPUs sinfo with
  | none => none
  | some total_gpus =>
    match ParseAllocatedGPUs squeue with
    | none => none
    | some allocated_gpus =>
      some { alloc := allocated_gpus,
             idle := F64.sub total_gpus allocated_gpus,
             total := total_gpus,
             utilization := F64.div allocated_gpus total_gpus }

/-! ## Notions used to state the properties -/

/-- A finite `float64` is a rational that rounding leaves unchanged; the infinities and
NaN are `float64` values as well. -/
def F64.IsValue : F64 → Prop
  | F64.fin q => roundF64 q = F64.fin q
  | _ => True

/-- The text made of the given entries, each one followed by a comma. -/
def commaPrefix (es : List (List Char)) : List Char :=
  (es.map (fun e => e ++ [','])).flatten

/-- The field of a matched GRES entry that `ReturnGPUCountFromGres` reads the count
from: the third colon-delimited field when there are more than two, else the second. -/
def gresCountField (v : List Char) : Option (List Char) :=
  if (Split v ':').length > 2 then (Split v ':')[2]? else (Split v ':')[1]?

/-- The sum, in order and starting from `0.0`, of the counts that `count` gives for
the items; there is no sum when `count` fails on an item. -/
def sumCounts (count : List Char → Option F64) (items : List (List Char)) : Option F64 :=
  items.foldlM (fun acc x => (count x).map (F64.add acc)) (F64.fin 0)

/-- The non-empty lines of a command output, in order. -/
def nonEmptyLines (output : List Char) : List (List Char) :=
  (Split output newline).filter (fun l => !l.isEmpty)

/-- The comparison `x <= y` of Go. -/
def F64.le : F64 → F64 → Bool
  | F64.fin a, F64.fin b => decide (a ≤ b)
  | F64.fin _, F64.inf s => !s
  | F64.inf s, F64.fin _ => s
  | F64.inf s, F64.inf t => s || !t
  | _, _ => false

/-- The count that `ParseTotalGPUs` reads from one non-empty line of the output of
`sinfo`: the GPU count of the second whitespace-separated field of the line with its
double quotes trimmed; there is none when the field is missing or the parsing panics. -/
def nodeLineCount (line : List Char) : Option F64 :=
  match (Fields (Trim line dquote))[1]? with
  | none => none
  | some descriptor => ReturnGPUCountFromGres descriptor

/-- The count that `ParseAllocatedGPUs` reads from one non-empty line of the output of
`squeue`: the allocated GPU count of the line with its double quotes trimmed. -/
def jobLineCount (line : List Char) : Option F64 :=
  ParseAllocTRES (Trim line dquote)

/-- The command output whose lines are the given ones: the lines with a newline
between each two of them. -/
def joinLines : List (List Char) → List Char
  | [] => []
  | [l] => l
  | l :: m :: ls => l ++ newline :: joinLines (m :: ls)

/-- The command output in which every non-empty line `x` is replaced by `x` between
two double quotes. -/
def quoteLines (output : List Char) : List Char :=
  joinLines ((Split output newline).map
    (fun x => if x.isEmpty then x else dquote :: (x ++ [dquote])))

/-! ## Lemmas on splitting and matching -/

theorem splitBy_ne_nil (p : Char → Bool) (s : List Char) : splitBy p s ≠ [] := by
  cases s with
  | nil => simp [splitBy]
  | cons c cs =>
    unfold splitBy
    split
    · simp
    · split <;> simp

theorem splitBy_no_sep (p : Char → Bool) (e : List Char) (he : ∀ x ∈ e, p x = false) :
    splitBy p e = [e] := by
  induction e with
  | nil => rfl
  | cons c cs ih =>
    have hc : p c = false := he c (List.mem_cons_self _ _)
    have hcs : ∀ x ∈ cs, p x = false := fun x hx => he x (List.mem_cons_of_mem _ hx)
    simp [splitBy, hc, ih hcs]

theorem splitBy_append_sep (p : Char → Bool) (e rest : List Char) (c : Char)
    (he : ∀ x ∈ e, p x = false) (hc : p c = true) :
    splitBy p (e ++ c :: rest) = e :: splitBy p rest := by
  induction e with
  | nil => simp [splitBy, hc]
  | cons d ds ih =>
    have hd : p d = false := he d (List.mem_cons_self _ _)
    have hds : ∀ x ∈ ds, p x = false := fun x hx => he x (List.mem_cons_of_mem _ hx)
    simp [splitBy, hd, ih hds]

theorem matchAnywhere_iff (ps : List RePiece) (v : List Char) :
    matchAnywhere ps v = true ↔ ∃ t, t <:+ v ∧ matchHere ps t = true := by
  induction v with
  | nil =>
    simp [matchAnywhere]
  | cons x xs ih =>
    simp only [matchAnywhere, Bool.or_eq_true, ih, List.suffix_cons_iff]
    constructor
    · rintro (h | ⟨t, ht, hm⟩)
      · exact ⟨x :: xs, Or.inl rfl, h⟩
      · exact ⟨t, Or.inr ht, hm⟩
    · rintro ⟨t, (rfl | ht), hm⟩
      · exact Or.inl hm
      · exact Or.inr ⟨t, ht, hm⟩

theorem matchStar_true (c : Char) (s : List Char) : matchStar c (fun _ => true) s = true := by
  cases s <;> simp [matchStar]

theorem matchHere_lit_star (l : List Char) (c : Char) (s : List Char) :
    matchHere (l.map RePiece.lit ++ [RePiece.star c]) s = true ↔ l <+: s := by
  induction l generalizing s with
  | nil =>
    have : matchHere [] = fun _ => true := by funext t; simp [matchHere]
    simp [matchHere, this, matchStar_true]
  | cons a l ih =>
    cases s with
    | nil => simp [matchHere]
    | cons x xs =>
      simp only [List.map_cons, List.cons_append, matchHere, Bool.and_eq_true, decide_eq_true_eq,
        List.cons_prefix_cons]
      constructor
      · rintro ⟨h1, h2⟩; exact ⟨h1.symm, (ih xs).mp h2⟩
      · rintro ⟨h1, h2⟩; exact ⟨h1.symm, (ih xs).mpr h2⟩

theorem regexpMatch_gpu (v : List Char) :
    regexpMatch "gpu:*" v = true ↔ "gpu".toList <:+: v := by
  have hc : compile "gpu:*".toList = "gpu".toList.map RePiece.lit ++ [RePiece.star ':'] := by
    decide
  unfold regexpMatch
  rw [hc, matchAnywhere_iff]
  simp only [matchHere_lit_star]
  constructor
  · rintro ⟨t, ht, hp⟩
    exact List.IsInfix.trans hp.isInfix ht.isInfix
  · rintro ⟨a, b, rfl⟩
    exact ⟨"gpu".toList ++ b, ⟨a, by simp⟩, List.prefix_append _ _⟩

theorem regexpMatch_gres (v : List Char) :
    regexpMatch "gres/gpu=*" v = true ↔ "gres/gpu".toList <:+: v := by
  have hc : compile "gres/gpu=*".toList = "gres/gpu".toList.map RePiece.lit ++ [RePiece.star '='] := by
    decide
  unfold regexpMatch
  rw [hc, matchAnywhere_iff]
  simp only [matchHere_lit_star]
  constructor
  · rintro ⟨t, ht, hp⟩
    exact List.IsInfix.trans hp.isInfix ht.isInfix
  · rintro ⟨a, b, rfl⟩
    exact ⟨"gres/gpu".toList ++ b, ⟨a, by simp⟩, List.prefix_append _ _⟩

/-! ## Lemmas on rounding -/

theorem zpowQ_eq (b : ℕ) (z : ℤ) : zpowQ b z = (b : ℚ) ^ z := by
  unfold zpowQ
  split
  · rename_i h
    obtain ⟨n, rfl⟩ := Int.eq_ofNat_of_zero_le h
    simp
  · rename_i h
    have h' : z < 0 := not_le.mp h
    obtain ⟨n, hn⟩ := Int.eq_ofNat_of_zero_le (by omega : 0 ≤ -z)
    have hz : z = -(n : ℤ) := by omega
    subst hz
    simp

theorem clog_two (n : ℕ) (hn : 2 ≤ n) : Nat.clog 2 n = Nat.log2 (n - 1) + 1 := by
  rw [Nat.log2_eq_log_two]
  apply le_antisymm
  · rw [← Nat.le_pow_iff_clog_le (by norm_num)]
    have := Nat.lt_pow_succ_log_self (by norm_num : 1 < 2) (n - 1)
    omega
  · have h1 : Nat.log 2 (n - 1) < Nat.clog 2 n := by
      rw [← Nat.pow_lt_iff_lt_clog (by norm_num)]
      have := Nat.pow_log_le_self 2 (by omega : n - 1 ≠ 0)
      omega
    omega

theorem ilog2_eq (a : ℚ) : ilog2 a = Int.log 2 a := by
  unfold ilog2 Int.log
  split
  · simp [Nat.log2_eq_log_two]
  · split
    · rename_i h
      rw [Nat.clog_of_right_le_one h]; simp
    · rename_i h
      rw [clog_two _ (by omega)]; simp

theorem ilog2_le (a : ℚ) (ha : 0 < a) : (2 : ℚ) ^ ilog2 a ≤ a := by
  rw [ilog2_eq]; exact_mod_cast Int.zpow_log_le_self (by norm_num : 1 < 2) ha

theorem lt_ilog2 (a : ℚ) : a < (2 : ℚ) ^ (ilog2 a + 1) := by
  rw [ilog2_eq]; exact_mod_cast Int.lt_zpow_succ_log_self (by norm_num : 1 < 2) a

theorem ilog2_lt_of_lt (a : ℚ) (ha : 0 < a) (x : ℤ) (h : a < (2 : ℚ) ^ x) : ilog2 a < x := by
  rw [ilog2_eq]
  have := (Int.lt_zpow_iff_log_lt (R := ℚ) (by norm_num : 1 < 2) ha (x := x)).mp (by exact_mod_cast h)
  exact this

theorem le_ilog2_of_le (a : ℚ) (ha : 0 < a) (x : ℤ) (h : (2 : ℚ) ^ x ≤ a) : x ≤ ilog2 a := by
  rw [ilog2_eq]
  exact (Int.zpow_le_iff_le_log (R := ℚ) (by norm_num : 1 < 2) ha (x := x)).mp (by exact_mod_cast h)

theorem roundHalfEven_natCast (m : ℕ) : roundHalfEven (m : ℚ) = m := by
  simp [roundHalfEven]

theorem le_roundHalfEven (m : ℕ) (x : ℚ) (h : (m : ℚ) ≤ x) : m ≤ roundHalfEven x := by
  have hf : m ≤ ⌊x⌋₊ := Nat.le_floor h
  unfold roundHalfEven
  split_ifs <;> omega

theorem roundHalfEven_le (m : ℕ) (x : ℚ) (hx : 0 ≤ x) (h : x ≤ (m : ℚ)) : roundHalfEven x ≤ m := by
  by_cases hxm : x = m
  · rw [hxm, roundHalfEven_natCast]
  · have hlt : x < m := lt_of_le_of_ne h hxm
    have hf : ⌊x⌋₊ < m := (Nat.floor_lt hx).mpr hlt
    unfold roundHalfEven
    split_ifs <;> omega

theorem two_zpow_pos (z : ℤ) : (0 : ℚ) < (2 : ℚ) ^ z := zpow_pos (by norm_num) z

theorem roundMag_zero : roundMag 0 = 0 := by
  simp [roundMag, roundHalfEven]

theorem roundMag_nonneg (q : ℚ) : 0 ≤ roundMag q := by
  unfold roundMag
  rw [zpowQ_eq]
  exact mul_nonneg (Nat.cast_nonneg _) (two_zpow_pos _).le

theorem roundMag_neg (q : ℚ) : roundMag (-q) = roundMag q := by
  simp [roundMag]

/-- A value `m * 2 ^ (e - 52)` with at most 53 significant bits and an exponent in the
range of `float64` is left unchanged by rounding. -/
theorem roundMag_of_repr (m : ℕ) (e : ℤ) (hm : m ≤ 2 ^ 53) (he : -1022 ≤ e) :
    roundMag ((m : ℚ) * (2 : ℚ) ^ (e - 52)) = (m : ℚ) * (2 : ℚ) ^ (e - 52) := by
  rcases Nat.eq_zero_or_pos m with rfl | hpos
  · simp [roundMag_zero]
  have hmq : (0 : ℚ) < m := by exact_mod_cast hpos
  have hr : (0 : ℚ) < (m : ℚ) * (2 : ℚ) ^ (e - 52) := mul_pos hmq (two_zpow_pos _)
  obtain ⟨r, hrdef⟩ : ∃ r : ℚ, r = (m : ℚ) * (2 : ℚ) ^ (e - 52) := ⟨_, rfl⟩
  rw [← hrdef] at hr ⊢
  have habs : |r| = r := abs_of_pos hr
  -- upper bound on the binade
  have hlt : r < (2 : ℚ) ^ (e + 2) := by
    have h1 : (m : ℚ) ≤ (2 : ℚ) ^ (53 : ℤ) := by
      have : (m : ℚ) ≤ ((2 ^ 53 : ℕ) : ℚ) := Nat.cast_le.mpr hm
      norm_num at this ⊢
      exact this
    have h2 : r ≤ (2 : ℚ) ^ (53 : ℤ) * (2 : ℚ) ^ (e - 52) := by
      rw [hrdef]; exact mul_le_mul_of_nonneg_right h1 (two_zpow_pos _).le
    rw [← zpow_add₀ (by norm_num : (2 : ℚ) ≠ 0)] at h2
    have h3 : (2 : ℚ) ^ (53 + (e - 52)) < (2 : ℚ) ^ (e + 2) :=
      zpow_lt_zpow_right₀ (by norm_num) (by omega)
    exact lt_of_le_of_lt h2 h3
  have hb1 : ilog2 r < e + 2 := ilog2_lt_of_lt r hr _ hlt
  have hb : binade r ≤ e + 1 := by unfold binade; omega
  have hbil : binade r = e + 1 → ilog2 r = e + 1 := by unfold binade; omega
  unfold roundMag
  rw [habs, zpowQ_eq]
  push_cast
  obtain ⟨b, hbdef⟩ : ∃ b : ℤ, b = binade r := ⟨_, rfl⟩
  rw [← hbdef] at hb hbil ⊢
  rcases (by omega : b ≤ e ∨ b = e + 1) with hle | heq
  · -- the quotient is the natural number m * 2 ^ (e - binade r)
    obtain ⟨k, hk⟩ := Int.eq_ofNat_of_zero_le (by omega : 0 ≤ e - b)
    have hq : r / (2 : ℚ) ^ (b - 52) = ((m * 2 ^ k : ℕ) : ℚ) := by
      rw [hrdef, mul_div_assoc, ← zpow_sub₀ (by norm_num : (2 : ℚ) ≠ 0)]
      have : e - 52 - (b - 52) = (k : ℤ) := by omega
      rw [this]; push_cast; simp
    rw [hq, roundHalfEven_natCast, ← hq]
    field_simp
  · -- then m = 2 ^ 53 and the quotient is 2 ^ 52
    have hil : ilog2 r = e + 1 := hbil heq
    have hge : (2 : ℚ) ^ (e + 1) ≤ r := by rw [← hil]; exact ilog2_le r hr
    have hm53 : (2 : ℚ) ^ (53 : ℤ) ≤ (m : ℚ) := by
      have h5 : (2 : ℚ) ^ (e + 1) = (2 : ℚ) ^ (53 : ℤ) * (2 : ℚ) ^ (e - 52) := by
        rw [← zpow_add₀ (by norm_num : (2 : ℚ) ≠ 0)]; congr 1; omega
      rw [h5, hrdef] at hge
      exact le_of_mul_le_mul_right hge (two_zpow_pos _)
    have hmeq : m = 2 ^ 53 := by
      have h6 : ((2 ^ 53 : ℕ) : ℚ) ≤ (m : ℚ) := by
        norm_num at hm53 ⊢
        exact hm53
      have : 2 ^ 53 ≤ m := Nat.cast_le.mp h6
      omega
    have hq : r / (2 : ℚ) ^ (b - 52) = ((2 ^ 52 : ℕ) : ℚ) := by
      rw [heq, hrdef, hmeq, mul_div_assoc, ← zpow_sub₀ (by norm_num : (2 : ℚ) ≠ 0)]
      have : e - 52 - (e + 1 - 52) = (-1 : ℤ) := by omega
      rw [this]; norm_num
    rw [hq, roundHalfEven_natCast, ← hq]
    field_simp

/-- Natural numbers up to `2 ^ 53` are `float64` values: rounding leaves them as they
are. -/
theorem roundMag_natCast (n : ℕ) (hn : n ≤ 2 ^ 53) : roundMag (n : ℚ) = n := by
  have := roundMag_of_repr n 52 hn (by norm_num)
  simpa using this

theorem zpowQ_1024 : zpowQ 2 1024 = (2 : ℚ) ^ (1024 : ℕ) := by
  rw [zpowQ_eq, Nat.cast_ofNat]; exact zpow_ofNat 2 1024

theorem roundF64_natCast (n : ℕ) (hn : n ≤ 2 ^ 53) : roundF64 (n : ℚ) = F64.fin n := by
  unfold roundF64
  rw [roundMag_natCast n hn, zpowQ_1024]
  have h1 : ¬ ((2 : ℚ) ^ (1024 : ℕ) ≤ (n : ℚ)) := by
    have h3 : (n : ℚ) ≤ (2 : ℚ) ^ (53 : ℕ) := by exact_mod_cast hn
    have h4 : (2 : ℚ) ^ (53 : ℕ) < (2 : ℚ) ^ (1024 : ℕ) :=
      pow_lt_pow_right₀ (by norm_num) (by norm_num)
    exact not_le.mpr (lt_of_le_of_lt h3 h4)
  have h2 : ¬ ((n : ℚ) < 0) := not_lt.mpr (Nat.cast_nonneg n)
  simp [h1, h2]

theorem roundHalfEven_quot_le (q : ℚ) :
    roundHalfEven (|q| / (2 : ℚ) ^ (binade |q| - 52)) ≤ 2 ^ 53 := by
  apply roundHalfEven_le
  · exact div_nonneg (abs_nonneg q) (two_zpow_pos _).le
  · rw [div_le_iff₀ (two_zpow_pos _)]
    have h1 : |q| < (2 : ℚ) ^ (ilog2 |q| + 1) := lt_ilog2 _
    have h2 : (2 : ℚ) ^ (ilog2 |q| + 1) ≤ (2 : ℚ) ^ (binade |q| + 1) :=
      zpow_le_zpow_right₀ (by norm_num) (by unfold binade; omega)
    have h3 : (((2 ^ 53 : ℕ) : ℚ)) * (2 : ℚ) ^ (binade |q| - 52) = (2 : ℚ) ^ (binade |q| + 1) := by
      have : (((2 ^ 53 : ℕ) : ℚ)) = (2 : ℚ) ^ (53 : ℤ) := by norm_num
      rw [this, ← zpow_add₀ (by norm_num : (2 : ℚ) ≠ 0)]
      congr 1; omega
    rw [h3]
    exact (lt_of_lt_of_le h1 h2).le

theorem roundMag_idem (q : ℚ) : roundMag (roundMag q) = roundMag q := by
  have h := roundMag_of_repr (roundHalfEven (|q| / (2 : ℚ) ^ (binade |q| - 52))) (binade |q|)
    (roundHalfEven_quot_le q) (by unfold binade; omega)
  have e : roundMag q =
      (roundHalfEven (|q| / (2 : ℚ) ^ (binade |q| - 52)) : ℚ) * (2 : ℚ) ^ (binade |q| - 52) := by
    unfold roundMag; rw [zpowQ_eq]; norm_num
  rw [e]; exact h

/-- Rounding a value that rounding leaves unchanged in magnitude and that is below the
overflow threshold gives the value itself. -/
theorem roundF64_of_fixed (r : ℚ) (hfix : roundMag r = |r|) (hlt : ¬ zpowQ 2 1024 ≤ |r|) :
    roundF64 r = F64.fin r := by
  unfold roundF64
  rw [hfix, if_neg hlt]
  by_cases h : r < 0
  · simp [h, abs_of_neg h]
  · simp [h, abs_of_nonneg (not_lt.mp h)]

/-- The set of `float64` values: a finite value is one that rounding leaves unchanged. -/
theorem roundF64_roundF64 (q r : ℚ) (h : roundF64 q = F64.fin r) : roundF64 r = F64.fin r := by
  unfold roundF64 at h
  split at h
  · cases h
  · rename_i hlt
    have hr : r = if q < 0 then -roundMag q else roundMag q := by
      injection h with h; exact h.symm
    have habs : |r| = roundMag q := by
      rw [hr]; split
      · rw [abs_neg, abs_of_nonneg (roundMag_nonneg q)]
      · rw [abs_of_nonneg (roundMag_nonneg q)]
    have hmag : roundMag r = roundMag q := by
      rw [hr]; split
      · rw [roundMag_neg, roundMag_idem]
      · rw [roundMag_idem]
    apply roundF64_of_fixed
    · rw [hmag, habs]
    · rw [habs]; exact hlt

theorem roundF64_intCast (z : ℤ) (hz : z.natAbs ≤ 2 ^ 53) : roundF64 (z : ℚ) = F64.fin z := by
  have habs : |(z : ℚ)| = (z.natAbs : ℚ) := by
    rw [Nat.cast_natAbs, Int.cast_abs]
  apply roundF64_of_fixed
  · have : roundMag (z : ℚ) = roundMag (|(z : ℚ)|) := by
      unfold roundMag; rw [abs_abs]
    rw [this, habs, roundMag_natCast _ hz]
  · rw [habs, zpowQ_1024]
    have h3 : (z.natAbs : ℚ) ≤ (2 : ℚ) ^ (53 : ℕ) := by exact_mod_cast hz
    have h4 : (2 : ℚ) ^ (53 : ℕ) < (2 : ℚ) ^ (1024 : ℕ) :=
      pow_lt_pow_right₀ (by norm_num) (by norm_num)
    exact not_le.mpr (lt_of_le_of_lt h3 h4)

/-- A magnitude of at least `2 ^ 1024` overflows. -/
theorem roundF64_overflow (q : ℚ) (h : (2 : ℚ) ^ (1024 : ℕ) ≤ q) :
    roundF64 q = F64.inf false := by
  have h1024 : (2 : ℚ) ^ (1024 : ℕ) = (2 : ℚ) ^ (1024 : ℤ) := (zpow_ofNat 2 1024).symm
  have hq : 0 < q := lt_of_lt_of_le (pow_pos (by norm_num) _) h
  have habs : |q| = q := abs_of_pos hq
  have hil : (1024 : ℤ) ≤ ilog2 q := le_ilog2_of_le q hq 1024 (by rw [← h1024]; exact h)
  have hb : binade q = ilog2 q := by unfold binade; omega
  have hm : 2 ^ 52 ≤ roundHalfEven (q / (2 : ℚ) ^ (binade q - 52)) := by
    apply le_roundHalfEven
    rw [le_div_iff₀ (two_zpow_pos _)]
    have : (((2 ^ 52 : ℕ) : ℚ)) * (2 : ℚ) ^ (binade q - 52) = (2 : ℚ) ^ (ilog2 q) := by
      have h52 : (((2 ^ 52 : ℕ) : ℚ)) = (2 : ℚ) ^ (52 : ℤ) := by norm_num
      rw [h52, hb, ← zpow_add₀ (by norm_num : (2 : ℚ) ≠ 0)]
      congr 1; omega
    rw [this]; exact ilog2_le q hq
  have hbig : zpowQ 2 1024 ≤ roundMag q := by
    unfold roundMag
    rw [habs, zpowQ_eq, zpowQ_eq]
    have h1 : (2 : ℚ) ^ (1024 : ℤ) ≤ (2 : ℚ) ^ (ilog2 q) := zpow_le_zpow_right₀ (by norm_num) hil
    have h2 : (2 : ℚ) ^ (ilog2 q) = (((2 ^ 52 : ℕ) : ℚ)) * (2 : ℚ) ^ (binade q - 52) := by
      have h52 : (((2 ^ 52 : ℕ) : ℚ)) = (2 : ℚ) ^ (52 : ℤ) := by norm_num
      rw [h52, hb, ← zpow_add₀ (by norm_num : (2 : ℚ) ≠ 0)]
      congr 1; omega
    have h3 : (((2 ^ 52 : ℕ) : ℚ)) * (2 : ℚ) ^ (binade q - 52)
        ≤ (roundHalfEven (q / (2 : ℚ) ^ (binade q - 52)) : ℚ) * (2 : ℚ) ^ (binade q - 52) :=
      mul_le_mul_of_nonneg_right (by exact_mod_cast hm) (two_zpow_pos _).le
    push_cast at h1 h2 h3 ⊢
    linarith
  unfold roundF64
  rw [if_pos hbig]
  simp [not_lt.mpr hq.le]

/-! ## Lemmas on `ParseFloat` -/

/-- A decimal digit character. -/
theorem digit_props (c : Char) (h : '0' ≤ c ∧ c ≤ '9') :
    c ≠ '+' ∧ c ≠ '-' ∧ c ≠ '_' ∧ c ≠ '.' ∧ c ≠ 'i' ∧ c ≠ 'I' ∧ c ≠ 'n' ∧ c ≠ 'N' ∧
    c ≠ 'x' ∧ c ≠ 'X' := by
  obtain ⟨h1, h2⟩ := h
  have h1' : 48 ≤ c.toNat := h1
  have h2' : c.toNat ≤ 57 := h2
  refine ⟨?_, ?_, ?_, ?_, ?_, ?_, ?_, ?_, ?_, ?_⟩ <;>
  · rintro rfl
    revert h1' h2'
    decide

theorem digitChar_props (k : ℕ) (hk : k < 10) :
    ('0' ≤ Nat.digitChar k ∧ Nat.digitChar k ≤ '9') ∧
    (Nat.digitChar k).toNat - '0'.toNat = k := by
  interval_cases k <;> decide

theorem toDigitsCore_spec (n : ℕ) :
    ∃ l : List Char, (∀ fuel ds, n < fuel → Nat.toDigitsCore 10 fuel n ds = l ++ ds) ∧
      (∀ c ∈ l, '0' ≤ c ∧ c ≤ '9') ∧ l ≠ [] ∧
      l.foldl (fun m c => m * 10 + (c.toNat - '0'.toNat)) 0 = n := by
  induction n using Nat.strong_induction_on with
  | _ n ih =>
    by_cases hn : n < 10
    · refine ⟨[Nat.digitChar n], ?_, ?_, by simp, ?_⟩
      · intro fuel ds hf
        cases fuel with
        | zero => omega
        | succ f =>
          have h0 : n / 10 = 0 := Nat.div_eq_of_lt hn
          simp [Nat.toDigitsCore, h0, Nat.mod_eq_of_lt hn]
      · intro c hc
        simp only [List.mem_singleton] at hc
        subst hc
        exact (digitChar_props n hn).1
      · show 0 * 10 + ((Nat.digitChar n).toNat - '0'.toNat) = n
        rw [(digitChar_props n hn).2]; omega
    · have hlt : n / 10 < n := Nat.div_lt_self (by omega) (by norm_num)
      obtain ⟨l, hl1, hl2, hl3, hl4⟩ := ih (n / 10) hlt
      have hmod : n % 10 < 10 := Nat.mod_lt _ (by norm_num)
      refine ⟨l ++ [Nat.digitChar (n % 10)], ?_, ?_, by simp, ?_⟩
      · intro fuel ds hf
        cases fuel with
        | zero => omega
        | succ f =>
          have h0 : n / 10 ≠ 0 := by omega
          simp [Nat.toDigitsCore, h0, hl1 f _ (by omega)]
      · intro c hc
        rcases List.mem_append.mp hc with h | h
        · exact hl2 c h
        · simp only [List.mem_singleton] at h
          subst h
          exact (digitChar_props _ hmod).1
      · rw [List.foldl_append, hl4]
        simp only [List.foldl_cons, List.foldl_nil, (digitChar_props _ hmod).2]
        omega

/-- The decimal numeral of `n` produced by `Nat.repr` is a non-empty list of digits
whose value is `n`. -/
theorem repr_spec (n : ℕ) :
    (∀ c ∈ (Nat.repr n).toList, '0' ≤ c ∧ c ≤ '9') ∧ (Nat.repr n).toList ≠ [] ∧
      (Nat.repr n).toList.foldl (fun m c => m * 10 + (c.toNat - '0'.toNat)) 0 = n := by
  obtain ⟨l, hl1, hl2, hl3, hl4⟩ := toDigitsCore_spec n
  have : (Nat.repr n).toList = l := by
    have h := hl1 (n + 1) [] (by omega)
    rw [List.append_nil] at h
    unfold Nat.repr Nat.toDigits
    rw [h]; rfl
  rw [this]
  exact ⟨hl2, hl3, hl4⟩

theorem readDigits_digits (ds : List Char) (hds : ∀ c ∈ ds, '0' ≤ c ∧ c ≤ '9')
    (m f : ℕ) (sd : Bool) :
    readDigits false ⟨m, f, false, sd⟩ ds =
      (⟨ds.foldl (fun m c => m * 10 + (c.toNat - '0'.toNat)) m, f, false, sd || !ds.isEmpty⟩, []) := by
  induction ds generalizing m sd with
  | nil => simp [readDigits]
  | cons c cs ih =>
    have hc := hds c (List.mem_cons_self _ _)
    have hcs : ∀ x ∈ cs, '0' ≤ x ∧ x ≤ '9' := fun x hx => hds x (List.mem_cons_of_mem _ hx)
    obtain ⟨-, -, h3, h4, -⟩ := digit_props c hc
    have hv : digitVal false c = some (c.toNat - '0'.toNat) := by
      simp [digitVal, hc.1, hc.2]
    simp [readDigits, h3, h4, hv, ih hcs]

theorem special_digit (c : Char) (t : List Char) (hc : '0' ≤ c ∧ c ≤ '9') :
    special (c :: t) = none := by
  obtain ⟨h1, h2, -, -, h5, h6, h7, h8, -, -⟩ := digit_props c hc
  unfold special
  split
  · rfl
  · rename_i h; cases h; exact absurd rfl h1
  · rename_i h; cases h; exact absurd rfl h2
  · rename_i c' t' _ _ h
    cases h
    simp [h5, h6, h7, h8]

theorem readFloat_digits (ds : List Char) (hds : ∀ c ∈ ds, '0' ≤ c ∧ c ≤ '9') (hne : ds ≠ []) :
    readFloat ds = some ((ds.foldl (fun m c => m * 10 + (c.toNat - '0'.toNat)) 0 : ℕ) : ℚ) := by
  obtain ⟨c, t, rfl⟩ := List.exists_cons_of_ne_nil hne
  have hc := hds c (List.mem_cons_self _ _)
  obtain ⟨h1, h2, h3, h4, -, -, -, -, h9, h10⟩ := digit_props c hc
  have hsign : dropSign (c :: t) = c :: t := by
    unfold dropSign; split
    · rename_i h; cases h; exact absurd rfl h1
    · rename_i h; cases h; exact absurd rfl h2
    · rfl
  have hneg : isNeg (c :: t) = false := by
    unfold isNeg; split
    · rename_i h; cases h; exact absurd rfl h2
    · rfl
  have hhex : hexPrefix (c :: t) = false := by
    unfold hexPrefix; split
    · rename_i x _ _ h
      cases h
      have hx := hds x (by simp)
      obtain ⟨-, -, -, -, -, -, -, -, hx9, hx10⟩ := digit_props x hx
      simp [hx9, hx10]
    · rfl
  have hus : '_' ∉ (c :: t) := by
    intro hmem
    exact (digit_props _ (hds _ hmem)).2.2.1 rfl
  have hrd := readDigits_digits (c :: t) hds 0 0 false
  unfold readFloat
  dsimp only
  rw [hsign, hhex]
  simp only [Bool.false_eq_true, if_false]
  rw [hrd]
  simp [readExpPart, hus, zpowQ, hneg]

theorem ParseFloat_digits (ds : List Char) (hds : ∀ c ∈ ds, '0' ≤ c ∧ c ≤ '9') (hne : ds ≠ [])
    (n : ℕ) (hval : ds.foldl (fun m c => m * 10 + (c.toNat - '0'.toNat)) 0 = n)
    (v : F64) (hv : roundF64 (n : ℚ) = v) (hfin : ∀ s, v ≠ F64.inf s) :
    ParseFloat ds = (v, none) := by
  obtain ⟨c, t, rfl⟩ := List.exists_cons_of_ne_nil hne
  have hsp := special_digit c t (hds c (List.mem_cons_self _ _))
  have hrf := readFloat_digits (c :: t) hds hne
  rw [hval] at hrf
  unfold ParseFloat
  simp only [hsp, hrf]
  rw [hv]
  split
  · rename_i b; exact absurd rfl (hfin b)
  · rfl

/-- The decimal numeral of a natural number up to `2 ^ 53` parses to that number. -/
theorem ParseFloat_repr (n : ℕ) (hn : n ≤ 2 ^ 53) :
    ParseFloat (Nat.repr n).toList = (F64.fin n, none) := by
  obtain ⟨h1, h2, h3⟩ := repr_spec n
  exact ParseFloat_digits _ h1 h2 n h3 _ (roundF64_natCast n hn) (by intro s h; cases h)

theorem repr_no_sep (n : ℕ) : ',' ∉ (Nat.repr n).toList ∧ ':' ∉ (Nat.repr n).toList ∧
    '=' ∉ (Nat.repr n).toList := by
  have h := (repr_spec n).1
  refine ⟨?_, ?_, ?_⟩ <;>
  · intro hmem
    have := h _ hmem
    revert this
    decide

/-- A syntax error comes with the value `0`. -/
theorem ParseFloat_syntax (s : List Char) (h : (ParseFloat s).2 = some NumError.ErrSyntax) :
    (ParseFloat s).1 = F64.fin 0 := by
  unfold ParseFloat at h ⊢
  cases hs : special s with
  | some p =>
    obtain ⟨v, rest⟩ := p
    simp only [hs] at h ⊢
    by_cases hr : rest = []
    · simp [hr] at h
    · simp [hr]
  | none =>
    simp only [hs] at h ⊢
    cases hq : readFloat s with
    | none => simp
    | some q =>
      simp only [hq] at h ⊢
      cases hv : roundF64 q with
      | fin r => simp [hv] at h
      | inf b => simp [hv] at h
      | nan => simp [hv] at h

/-- The key rounding fact: `2 ^ 53 + 1` lies half way between two `float64` values and
is rounded to the even one, `2 ^ 53`. -/
theorem roundF64_tie : roundF64 9007199254740993 = F64.fin 9007199254740992 := by
  have hq : (0 : ℚ) < 9007199254740993 := by norm_num
  have hil : ilog2 9007199254740993 = 53 := by
    apply le_antisymm
    · have := ilog2_lt_of_lt 9007199254740993 hq 54 (by norm_num)
      omega
    · exact le_ilog2_of_le 9007199254740993 hq 53 (by norm_num)
  have hb : binade 9007199254740993 = 53 := by unfold binade; rw [hil]; rfl
  have hfl : ⌊((9007199254740993 : ℚ) / 2)⌋₊ = 4503599627370496 := by
    rw [Nat.floor_eq_iff (by norm_num)]
    constructor <;> norm_num
  have hm : roundMag 9007199254740993 = 9007199254740992 := by
    unfold roundMag
    rw [abs_of_pos hq, hb, zpowQ_eq]
    have h2 : ((2 : ℕ) : ℚ) ^ ((53 : ℤ) - 52) = 2 := by norm_num
    rw [h2]
    unfold roundHalfEven
    rw [hfl]
    norm_num
  unfold roundF64
  rw [hm, zpowQ_1024]
  have h1 : ¬ ((2 : ℚ) ^ (1024 : ℕ) ≤ 9007199254740992) := by
    have h4 : (9007199254740992 : ℚ) < (2 : ℚ) ^ (1024 : ℕ) := by
      have : (9007199254740992 : ℚ) = (2 : ℚ) ^ (53 : ℕ) := by norm_num
      rw [this]
      exact pow_lt_pow_right₀ (by norm_num) (by norm_num)
    exact not_le.mpr h4
  rw [if_neg h1]
  norm_num

/-! ## Lemmas on the two entry loops -/

theorem Split_single (s : List Char) (sep : Char) (h : sep ∉ s) : Split s sep = [s] := by
  apply splitBy_no_sep
  intro x hx
  simp only [decide_eq_false_iff_not]
  rintro rfl
  exact h hx

theorem Split_cons_sep (e rest : List Char) (sep : Char) (h : sep ∉ e) :
    Split (e ++ sep :: rest) sep = e :: Split rest sep := by
  apply splitBy_append_sep
  · intro x hx
    simp only [decide_eq_false_iff_not]
    rintro rfl
    exact h hx
  · simp

theorem Split_commaPrefix (es : List (List Char)) (rest : List Char)
    (hes : ∀ e ∈ es, ',' ∉ e) : Split (commaPrefix es ++ rest) ',' = es ++ Split rest ',' := by
  induction es with
  | nil => simp [commaPrefix]
  | cons e es ih =>
    have he := hes e (List.mem_cons_self _ _)
    have hes' : ∀ x ∈ es, ',' ∉ x := fun x hx => hes x (List.mem_cons_of_mem _ hx)
    have : commaPrefix (e :: es) ++ rest = e ++ ',' :: (commaPrefix es ++ rest) := by
      simp [commaPrefix]
    rw [this, Split_cons_sep e _ ',' he, ih hes']
    rfl

theorem gresLoop_skip (x : F64) (es l : List (List Char))
    (hes : ∀ e ∈ es, regexpMatch "gpu:*" e = false) : gresLoop x (es ++ l) = gresLoop x l := by
  induction es with
  | nil => rfl
  | cons e es ih =>
    have he := hes e (List.mem_cons_self _ _)
    have hes' : ∀ y ∈ es, regexpMatch "gpu:*" y = false :=
      fun y hy => hes y (List.mem_cons_of_mem _ hy)
    simp [gresLoop, he, ih hes']

theorem gresLoop_hit (x : F64) (v f : List Char) (vs : List (List Char))
    (hv : regexpMatch "gpu:*" v = true) (hf : gresCountField v = some f) :
    gresLoop x (v :: vs) = some (ParseFloat f).1 := by
  unfold gresCountField at hf
  unfold gresLoop
  rw [if_pos hv]
  split
  · rename_i h; rw [if_pos h] at hf; rw [hf]; rfl
  · rename_i h; rw [if_neg h] at hf; rw [hf]; rfl

/-- The result of `ReturnGPUCountFromGres` is the parsed count field of the first entry
that the pattern matches. -/
theorem gres_first_match (d : List Char) (pre post : List (List Char)) (v f : List Char)
    (hsplit : Split d ',' = pre ++ v :: post)
    (hpre : ∀ e ∈ pre, regexpMatch "gpu:*" e = false)
    (hv : regexpMatch "gpu:*" v = true) (hf : gresCountField v = some f) :
    ReturnGPUCountFromGres d = some (ParseFloat f).1 := by
  unfold ReturnGPUCountFromGres
  rw [hsplit, gresLoop_skip _ _ _ hpre, gresLoop_hit _ v f post hv hf]

theorem gres_no_match (d : List Char)
    (h : ∀ e ∈ Split d ',', regexpMatch "gpu:*" e = false) :
    ReturnGPUCountFromGres d = some (F64.fin 0) := by
  unfold ReturnGPUCountFromGres
  have := gresLoop_skip (F64.fin 0) (Split d ',') [] h
  rw [List.append_nil] at this
  rw [this]; rfl

theorem tresLoop_skip (x : F64) (es l : List (List Char))
    (hes : ∀ e ∈ es, regexpMatch "gres/gpu=*" e = false) : tresLoop x (es ++ l) = tresLoop x l := by
  induction es with
  | nil => rfl
  | cons e es ih =>
    have he := hes e (List.mem_cons_self _ _)
    have hes' : ∀ y ∈ es, regexpMatch "gres/gpu=*" y = false :=
      fun y hy => hes y (List.mem_cons_of_mem _ hy)
    simp [tresLoop, he, ih hes']

/-- The result of `ParseAllocTRES` is the parsed second `=`-field of the first entry that
the pattern matches. -/
theorem tres_first_match (l : List Char) (pre post : List (List Char)) (v f : List Char)
    (hsplit : Split l ',' = pre ++ v :: post)
    (hpre : ∀ e ∈ pre, regexpMatch "gres/gpu=*" e = false)
    (hv : regexpMatch "gres/gpu=*" v = true) (hf : (Split v '=')[1]? = some f) :
    ParseAllocTRES l = some (ParseFloat f).1 := by
  unfold ParseAllocTRES
  rw [hsplit, tresLoop_skip _ _ _ hpre]
  unfold tresLoop
  rw [if_pos hv, hf]; rfl

theorem tres_no_match (l : List Char)
    (h : ∀ e ∈ Split l ',', regexpMatch "gres/gpu=*" e = false) :
    ParseAllocTRES l = some (F64.fin 0) := by
  unfold ParseAllocTRES
  have := tresLoop_skip (F64.fin 0) (Split l ',') [] h
  rw [List.append_nil] at this
  rw [this]; rfl

theorem not_match_of_not_infix_gpu (e : List Char) (h : ¬ "gpu".toList <:+: e) :
    regexpMatch "gpu:*" e = false := by
  rw [← Bool.not_eq_true, regexpMatch_gpu]; exact h

theorem not_match_of_not_infix_gres (e : List Char) (h : ¬ "gres/gpu".toList <:+: e) :
    regexpMatch "gres/gpu=*" e = false := by
  rw [← Bool.not_eq_true, regexpMatch_gres]; exact h

/-! ## The claims about the two parsers -/

theorem gres_two_fields (f : List Char) (hf : ':' ∉ f) :
    gresCountField ("gpu:".toList ++ f) = some f := by
  have h : Split ("gpu:".toList ++ f) ':' = ["gpu".toList, f] := by
    have e : "gpu:".toList ++ f = "gpu".toList ++ ':' :: f := rfl
    rw [e, Split_cons_sep _ _ ':' (by decide), Split_single f ':' hf]
  unfold gresCountField
  rw [h]; rfl

theorem gres_three_fields (t f : List Char) (ht : ':' ∉ t) (hf : ':' ∉ f) :
    gresCountField ("gpu:".toList ++ t ++ ":".toList ++ f) = some f := by
  have h : Split ("gpu:".toList ++ t ++ ":".toList ++ f) ':' = ["gpu".toList, t, f] := by
    have e : "gpu:".toList ++ t ++ ":".toList ++ f = "gpu".toList ++ ':' :: (t ++ ':' :: f) := by
      simp
    rw [e, Split_cons_sep _ _ ':' (by decide), Split_cons_sep _ _ ':' ht, Split_single f ':' hf]
  unfold gresCountField
  rw [h]; rfl

theorem gpu_prefix_matches (r : List Char) : regexpMatch "gpu:*" ("gpu:".toList ++ r) = true := by
  rw [regexpMatch_gpu]
  exact ⟨[], ':' :: r, rfl⟩

/-- Claim C1, amended: for every natural number `n` up to `2 ^ 53` written in decimal,
every type string `t` without `,` and `:`, and every prefix of comma-terminated
entries none of which contains `gpu`, `ReturnGPUCountFromGres` returns `n` on
`prefix ++ "gpu:<n>"` and on `prefix ++ "gpu:<t>:<n>"`. -/
theorem gres_count_exact (es : List (List Char)) (t : List Char) (n : ℕ)
    (hes : ∀ e ∈ es, ',' ∉ e ∧ ¬ "gpu".toList <:+: e)
    (ht : ',' ∉ t ∧ ':' ∉ t) (hn : n ≤ 2 ^ 53) :
    ReturnGPUCountFromGres (commaPrefix es ++ "gpu:".toList ++ (Nat.repr n).toList)
        = some (F64.fin n) ∧
    ReturnGPUCountFromGres
        (commaPrefix es ++ "gpu:".toList ++ t ++ ":".toList ++ (Nat.repr n).toList)
        = some (F64.fin n) := by
  obtain ⟨hr1, hr2, -⟩ := repr_no_sep n
  have hpre : ∀ e ∈ es, regexpMatch "gpu:*" e = false :=
    fun e he => not_match_of_not_infix_gpu e (hes e he).2
  have hcomma : ∀ e ∈ es, ',' ∉ e := fun e he => (hes e he).1
  have hpf := ParseFloat_repr n hn
  constructor
  · have hs : Split (commaPrefix es ++ "gpu:".toList ++ (Nat.repr n).toList) ','
        = es ++ ("gpu:".toList ++ (Nat.repr n).toList) :: [] := by
      rw [List.append_assoc, Split_commaPrefix es _ hcomma, Split_single]
      simp only [List.mem_append, not_or]
      exact ⟨by decide, hr1⟩
    rw [gres_first_match _ es [] _ _ hs hpre (gpu_prefix_matches _) (gres_two_fields _ hr2), hpf]
  · have hs : Split (commaPrefix es ++ "gpu:".toList ++ t ++ ":".toList ++ (Nat.repr n).toList) ','
        = es ++ ("gpu:".toList ++ t ++ ":".toList ++ (Nat.repr n).toList) :: [] := by
      have e : commaPrefix es ++ "gpu:".toList ++ t ++ ":".toList ++ (Nat.repr n).toList
          = commaPrefix es ++ ("gpu:".toList ++ t ++ ":".toList ++ (Nat.repr n).toList) := by
        simp
      rw [e, Split_commaPrefix es _ hcomma, Split_single]
      simp only [List.mem_append, not_or]
      exact ⟨⟨⟨by decide, ht.1⟩, by decide⟩, hr1⟩
    have hm : regexpMatch "gpu:*" ("gpu:".toList ++ t ++ ":".toList ++ (Nat.repr n).toList) = true := by
      have e : "gpu:".toList ++ t ++ ":".toList ++ (Nat.repr n).toList
          = "gpu:".toList ++ (t ++ ":".toList ++ (Nat.repr n).toList) := by simp
      rw [e]; exact gpu_prefix_matches _
    rw [gres_first_match _ es [] _ _ hs hpre hm (gres_three_fields t _ ht.2 hr2), hpf]

/-- Witness of `gres_count_exact`: the three descriptors of the specification, and a
typed entry after another entry. -/
theorem gres_count_exact_witness :
    (ReturnGPUCountFromGres "gpu:4".toList = some (F64.fin 4) ∧
      ReturnGPUCountFromGres "gpu:v100:4".toList = some (F64.fin 4)) ∧
    (ReturnGPUCountFromGres "cpu:16,gpu:2".toList = some (F64.fin 2) ∧
      ReturnGPUCountFromGres "cpu:16,gpu:a100:2".toList = some (F64.fin 2)) :=
  ⟨by simpa using gres_count_exact [] "v100".toList 4 (by decide) (by decide) (by norm_num),
   by simpa using gres_count_exact ["cpu:16".toList] "a100".toList 2 (by decide) (by decide) (by norm_num)⟩

theorem ParseFloat_tie :
    ParseFloat "9007199254740993".toList = (F64.fin 9007199254740992, none) :=
  ParseFloat_digits _ (by decide) (by decide) 9007199254740993 (by decide) _
    (by exact_mod_cast roundF64_tie) (by intro s h; cases h)

/-- Counterexample to claim C1 as stated: the decimal numeral of `2 ^ 53 + 1` is not
returned as `2 ^ 53 + 1` but as the nearest `float64`, `2 ^ 53`. -/
theorem gres_count_rounds :
    ReturnGPUCountFromGres "gpu:9007199254740993".toList = some (F64.fin 9007199254740992) ∧
    ReturnGPUCountFromGres "gpu:9007199254740993".toList
      ≠ some (F64.fin ((9007199254740993 : ℕ) : ℚ)) := by
  have h : ReturnGPUCountFromGres "gpu:9007199254740993".toList
      = some (F64.fin 9007199254740992) := by
    rw [gres_first_match "gpu:9007199254740993".toList [] [] "gpu:9007199254740993".toList
      "9007199254740993".toList (by decide) (by decide) (by decide) (by decide), ParseFloat_tie]
  refine ⟨h, ?_⟩
  rw [h]
  intro e
  injection e with e
  injection e with e
  norm_num at e

theorem ParseFloat_five : ParseFloat "5".toList = (F64.fin 5, none) := by
  have := ParseFloat_repr 5 (by norm_num)
  simpa using this

/-- Claim C2, the code at the failing input: the descriptor `xgpu:5` has no entry whose
first colon-delimited field is `gpu`, and `ReturnGPUCountFromGres` returns 5 on it
instead of 0, because the pattern `gpu:*` matches inside the field `xgpu`. -/
theorem gres_matches_inside_entry :
    (∀ e ∈ Split "xgpu:5".toList ',', (Split e ':').head? ≠ some "gpu".toList) ∧
    ReturnGPUCountFromGres "xgpu:5".toList = some (F64.fin 5) := by
  refine ⟨by decide, ?_⟩
  rw [gres_first_match "xgpu:5".toList [] [] "xgpu:5".toList "5".toList
    (by decide) (by decide) (by decide) (by decide), ParseFloat_five]

/-- Claim C3, the code at the failing input: an entry that contains `gpu` and no colon
is matched by the pattern `gpu:*`, its colon-split has one field, and reading the
field of index 1 panics. -/
theorem gres_entry_without_colon_panics :
    ReturnGPUCountFromGres "gpu".toList = none ∧
    ReturnGPUCountFromGres "gpus".toList = none ∧
    ReturnGPUCountFromGres "cpu:16,gpu".toList = none := by
  decide

theorem tres_value_field (f : List Char) (hf : '=' ∉ f) :
    (Split ("gres/gpu=".toList ++ f) '=')[1]? = some f := by
  have h : Split ("gres/gpu=".toList ++ f) '=' = ["gres/gpu".toList, f] := by
    have e : "gres/gpu=".toList ++ f = "gres/gpu".toList ++ '=' :: f := rfl
    rw [e, Split_cons_sep _ _ '=' (by decide), Split_single f '=' hf]
  rw [h]; rfl

theorem gres_prefix_matches (r : List Char) :
    regexpMatch "gres/gpu=*" ("gres/gpu=".toList ++ r) = true := by
  rw [regexpMatch_gres]
  exact ⟨[], '=' :: r, rfl⟩

/-- Claim C4, amended: for every natural number `n` up to `2 ^ 53` written in decimal
and every prefix of comma-terminated entries none of which contains `gres/gpu`,
`ParseAllocTRES` returns `n` on `prefix ++ "gres/gpu=<n>"`, also when further
comma-separated entries follow. -/
theorem tres_count_exact (es : List (List Char)) (n : ℕ) (rest : List Char)
    (hes : ∀ e ∈ es, ',' ∉ e ∧ ¬ "gres/gpu".toList <:+: e) (hn : n ≤ 2 ^ 53) :
    ParseAllocTRES (commaPrefix es ++ "gres/gpu=".toList ++ (Nat.repr n).toList)
        = some (F64.fin n) ∧
    ParseAllocTRES (commaPrefix es ++ "gres/gpu=".toList ++ (Nat.repr n).toList ++ ',' :: rest)
        = some (F64.fin n) := by
  obtain ⟨hr1, -, hr3⟩ := repr_no_sep n
  have hpre : ∀ e ∈ es, regexpMatch "gres/gpu=*" e = false :=
    fun e he => not_match_of_not_infix_gres e (hes e he).2
  have hcomma : ∀ e ∈ es, ',' ∉ e := fun e he => (hes e he).1
  have hpf := ParseFloat_repr n hn
  have hv : ',' ∉ "gres/gpu=".toList ++ (Nat.repr n).toList := by
    simp only [List.mem_append, not_or]
    exact ⟨by decide, hr1⟩
  constructor
  · have hs : Split (commaPrefix es ++ "gres/gpu=".toList ++ (Nat.repr n).toList) ','
        = es ++ ("gres/gpu=".toList ++ (Nat.repr n).toList) :: [] := by
      rw [List.append_assoc, Split_commaPrefix es _ hcomma, Split_single _ _ hv]
    rw [tres_first_match _ es [] _ _ hs hpre (gres_prefix_matches _) (tres_value_field _ hr3), hpf]
  · have hs : Split (commaPrefix es ++ "gres/gpu=".toList ++ (Nat.repr n).toList ++ ',' :: rest) ','
        = es ++ ("gres/gpu=".toList ++ (Nat.repr n).toList) :: Split rest ',' := by
      have e : commaPrefix es ++ "gres/gpu=".toList ++ (Nat.repr n).toList ++ ',' :: rest
          = commaPrefix es ++ (("gres/gpu=".toList ++ (Nat.repr n).toList) ++ ',' :: rest) := by
        simp
      rw [e, Split_commaPrefix es _ hcomma, Split_cons_sep _ _ ',' hv]
    rw [tres_first_match _ es _ _ _ hs hpre (gres_prefix_matches _) (tres_value_field _ hr3), hpf]

/-- Witness of `tres_count_exact`: the line of the specification. -/
theorem tres_count_exact_witness :
    ParseAllocTRES "billing=5,cpu=5,gres/gpu=1".toList = some (F64.fin 1) ∧
    ParseAllocTRES "billing=5,cpu=5,gres/gpu=1,node=1".toList = some (F64.fin 1) := by
  simpa using tres_count_exact ["billing=5".toList, "cpu=5".toList] 1 "node=1".toList
    (by decide) (by norm_num)

/-- Counterexample to claim C4 as stated: the decimal numeral of `2 ^ 53 + 1` is not
returned as `2 ^ 53 + 1` but as the nearest `float64`, `2 ^ 53`. -/
theorem tres_count_rounds :
    ParseAllocTRES "gres/gpu=9007199254740993".toList = some (F64.fin 9007199254740992) ∧
    ParseAllocTRES "gres/gpu=9007199254740993".toList
      ≠ some (F64.fin ((9007199254740993 : ℕ) : ℚ)) := by
  have h : ParseAllocTRES "gres/gpu=9007199254740993".toList
      = some (F64.fin 9007199254740992) := by
    rw [tres_first_match "gres/gpu=9007199254740993".toList [] []
      "gres/gpu=9007199254740993".toList "9007199254740993".toList
      (by decide) (by decide) (by decide) (by decide), ParseFloat_tie]
  refine ⟨h, ?_⟩
  rw [h]
  intro e
  injection e with e
  injection e with e
  norm_num at e

theorem ParseFloat_two : ParseFloat "2".toList = (F64.fin 2, none) := by
  have := ParseFloat_repr 2 (by norm_num)
  simpa using this

/-- Claim C5, amended: `ParseAllocTRES` matches an entry when it contains the substring
`gres/gpu` (the `=` of the pattern `gres/gpu=*` is optional); for every TRES line in
which no comma-separated entry contains `gres/gpu`, it returns 0. -/
theorem tres_no_entry_zero :
    (∀ v : List Char, regexpMatch "gres/gpu=*" v = true ↔ "gres/gpu".toList <:+: v) ∧
    ∀ l : List Char, (∀ e ∈ Split l ',', ¬ "gres/gpu".toList <:+: e) →
      ParseAllocTRES l = some (F64.fin 0) :=
  ⟨regexpMatch_gres,
   fun l h => tres_no_match l (fun e he => not_match_of_not_infix_gres e (h e he))⟩

/-- Witness of `tres_no_entry_zero`: a line without any `gres/gpu` entry. -/
theorem tres_no_entry_zero_witness :
    (∀ e ∈ Split "billing=5,cpu=5,node=1".toList ',', ¬ "gres/gpu".toList <:+: e) ∧
    ParseAllocTRES "billing=5,cpu=5,node=1".toList = some (F64.fin 0) :=
  ⟨by decide, tres_no_entry_zero.2 "billing=5,cpu=5,node=1".toList (by decide)⟩

/-- Counterexample to claim C5 as stated: no entry of the line `gres/gpu:v100=2`
contains `gres/gpu=`, and `ParseAllocTRES` returns 2 on it, not 0. -/
theorem tres_typed_entry_counted :
    (∀ e ∈ Split "gres/gpu:v100=2".toList ',', ¬ "gres/gpu=".toList <:+: e) ∧
    ParseAllocTRES "gres/gpu:v100=2".toList = some (F64.fin 2) ∧
    ParseAllocTRES "gres/gpu:v100=2".toList ≠ some (F64.fin 0) := by
  have h : ParseAllocTRES "gres/gpu:v100=2".toList = some (F64.fin 2) := by
    rw [tres_first_match "gres/gpu:v100=2".toList [] [] "gres/gpu:v100=2".toList "2".toList
      (by decide) (by decide) (by decide) (by decide), ParseFloat_two]
  refine ⟨by decide, h, ?_⟩
  rw [h]
  intro e
  injection e with e
  injection e with e
  norm_num at e

/-- Claim C6, the code at the failing input: an entry that contains `gres/gpu` and no
`=` is matched by the pattern `gres/gpu=*`, its `=`-split has one field, and reading
the field of index 1 panics. -/
theorem tres_entry_without_equals_panics :
    ParseAllocTRES "gres/gpu".toList = none ∧
    ParseAllocTRES "cpu=5,gres/gpu".toList = none := by
  decide

theorem ten_pow_999_large : (2 : ℚ) ^ (1024 : ℕ) ≤ ((1 : ℕ) : ℚ) * zpowQ 10 999 := by
  rw [zpowQ_eq]
  have h1 : (2 : ℚ) ^ (1024 : ℕ) ≤ (2 : ℚ) ^ (3 * 999 : ℕ) :=
    pow_le_pow_right₀ (by norm_num) (by norm_num)
  have h2 : (2 : ℚ) ^ (3 * 999 : ℕ) = ((2 : ℚ) ^ 3) ^ (999 : ℕ) := pow_mul 2 3 999
  have h3 : ((2 : ℚ) ^ 3) ^ (999 : ℕ) ≤ (10 : ℚ) ^ (999 : ℕ) :=
    pow_le_pow_left₀ (by norm_num) (by norm_num) 999
  have h4 : ((10 : ℕ) : ℚ) ^ (999 : ℤ) = (10 : ℚ) ^ (999 : ℕ) := by
    rw [Nat.cast_ofNat]; exact zpow_ofNat 10 999
  rw [h4, Nat.cast_one, one_mul]
  calc (2 : ℚ) ^ (1024 : ℕ) ≤ (2 : ℚ) ^ (3 * 999 : ℕ) := h1
    _ = ((2 : ℚ) ^ 3) ^ (999 : ℕ) := h2
    _ ≤ (10 : ℚ) ^ (999 : ℕ) := h3

/-- The value read by `readFloat` from an unsigned decimal numeral without underscores,
in terms of the results of its two loops. -/
theorem readFloat_decimal (s rest : List Char) (st : Digits) (e : ℤ)
    (h1 : dropSign s = s) (h2 : hexPrefix s = false) (h3 : isNeg s = false)
    (h4 : readDigits false ⟨0, 0, false, false⟩ s = (st, rest))
    (h5 : st.sawdigits = true) (h6 : readExpPart false rest = some (e, []))
    (h7 : '_' ∉ s) :
    readFloat s = some ((st.mant : ℚ) * zpowQ 10 (e - (st.frac : ℤ))) := by
  unfold readFloat
  dsimp only
  rw [h1, h2]
  simp only [Bool.false_eq_true, if_false]
  rw [h4]
  simp [h5, h6, h7, h3]

theorem ParseFloat_overflow (s : List Char) (q : ℚ) (b : Bool) (hsp : special s = none)
    (hrf : readFloat s = some q) (hr : roundF64 q = F64.inf b) :
    ParseFloat s = (F64.inf b, some NumError.ErrRange) := by
  unfold ParseFloat
  simp only [hsp, hrf, hr]

/-- The numeral `1e999` is too large for `float64`: the value is `+Inf` and the error is
`ErrRange`. -/
theorem ParseFloat_1e999 :
    ParseFloat "1e999".toList = (F64.inf false, some NumError.ErrRange) := by
  have hrf := readFloat_decimal "1e999".toList "e999".toList ⟨1, 0, false, true⟩ 999
    (by decide) (by decide) (by decide) (by decide) rfl (by decide) (by decide)
  have hval : ((1 : ℕ) : ℚ) * zpowQ 10 (999 - ((0 : ℕ) : ℤ)) = ((1 : ℕ) : ℚ) * zpowQ 10 999 := by
    congr 2
  have hr : roundF64 (((1 : ℕ) : ℚ) * zpowQ 10 (999 - ((0 : ℕ) : ℤ))) = F64.inf false := by
    rw [hval]; exact roundF64_overflow _ ten_pow_999_large
  exact ParseFloat_overflow _ _ false (by decide) hrf hr

theorem ParseFloat_abc : ParseFloat "abc".toList = (F64.fin 0, some NumError.ErrSyntax) := by
  decide

/-- Claim C7, amended: when the float parser reports a syntax error (`ErrSyntax`: the
field is not a numeral, as `abc` or the empty string) on the count field of the first
matched entry, `ReturnGPUCountFromGres` returns 0; likewise `ParseAllocTRES` returns 0
when the value after `=` of the first matched entry has a syntax error. -/
theorem syntax_error_gives_zero :
    (∀ (d : List Char) (pre post : List (List Char)) (v f : List Char),
      Split d ',' = pre ++ v :: post →
      (∀ e ∈ pre, regexpMatch "gpu:*" e = false) →
      regexpMatch "gpu:*" v = true →
      gresCountField v = some f →
      (ParseFloat f).2 = some NumError.ErrSyntax →
      ReturnGPUCountFromGres d = some (F64.fin 0)) ∧
    (∀ (l : List Char) (pre post : List (List Char)) (v f : List Char),
      Split l ',' = pre ++ v :: post →
      (∀ e ∈ pre, regexpMatch "gres/gpu=*" e = false) →
      regexpMatch "gres/gpu=*" v = true →
      (Split v '=')[1]? = some f →
      (ParseFloat f).2 = some NumError.ErrSyntax →
      ParseAllocTRES l = some (F64.fin 0)) := by
  constructor
  · intro d pre post v f hs hpre hv hf herr
    rw [gres_first_match d pre post v f hs hpre hv hf, ParseFloat_syntax f herr]
  · intro l pre post v f hs hpre hv hf herr
    rw [tres_first_match l pre post v f hs hpre hv hf, ParseFloat_syntax f herr]

/-- Witness of `syntax_error_gives_zero`: the descriptor `cpu:16,gpu:abc` of the
specification, an empty count field, and the TRES line `cpu=5,gres/gpu=abc,node=1`. -/
theorem syntax_error_gives_zero_witness :
    ReturnGPUCountFromGres "cpu:16,gpu:abc".toList = some (F64.fin 0) ∧
    ReturnGPUCountFromGres "gpu:".toList = some (F64.fin 0) ∧
    ParseAllocTRES "cpu=5,gres/gpu=abc,node=1".toList = some (F64.fin 0) :=
  ⟨syntax_error_gives_zero.1 "cpu:16,gpu:abc".toList ["cpu:16".toList] [] "gpu:abc".toList
      "abc".toList (by decide) (by decide) (by decide) (by decide) (by decide),
   syntax_error_gives_zero.1 "gpu:".toList [] [] "gpu:".toList
      "".toList (by decide) (by decide) (by decide) (by decide) (by decide),
   syntax_error_gives_zero.2 "cpu=5,gres/gpu=abc,node=1".toList ["cpu=5".toList]
      ["node=1".toList] "gres/gpu=abc".toList "abc".toList
      (by decide) (by decide) (by decide) (by decide) (by decide)⟩

/-- Counterexample to claim C7 as stated: on the count field `1e999` the float parser
reports an error (`ErrRange`), and the two parsers return `+Inf`, not 0. -/
theorem range_error_gives_inf :
    (ParseFloat "1e999".toList).2 = some NumError.ErrRange ∧
    ReturnGPUCountFromGres "gpu:1e999".toList = some (F64.inf false) ∧
    ParseAllocTRES "gres/gpu=1e999".toList = some (F64.inf false) ∧
    F64.inf false ≠ F64.fin 0 := by
  refine ⟨by rw [ParseFloat_1e999], ?_, ?_, by intro h; cases h⟩
  · rw [gres_first_match "gpu:1e999".toList [] [] "gpu:1e999".toList "1e999".toList
      (by decide) (by decide) (by decide) (by decide), ParseFloat_1e999]
  · rw [tres_first_match "gres/gpu=1e999".toList [] [] "gres/gpu=1e999".toList "1e999".toList
      (by decide) (by decide) (by decide) (by decide), ParseFloat_1e999]

/-! ## Lemmas on the two collectors -/

theorem roundF64_isValue (q : ℚ) : (roundF64 q).IsValue := by
  cases h : roundF64 q with
  | fin r => exact roundF64_roundF64 q r h
  | inf s => trivial
  | nan => trivial

theorem add_isValue (x y : F64) : (F64.add x y).IsValue := by
  cases x <;> cases y <;> simp only [F64.add]
  · exact roundF64_isValue _
  · trivial
  · trivial
  · trivial
  · split <;> trivial
  · trivial
  · trivial
  · trivial
  · trivial

theorem zero_isValue : (F64.fin 0).IsValue := by
  have := roundF64_natCast 0 (by norm_num)
  simpa [F64.IsValue] using this

theorem add_zero_of_isValue (x : F64) (hx : x.IsValue) : F64.add x (F64.fin 0) = x := by
  cases x with
  | fin a =>
    simp only [F64.add, add_zero]
    exact hx
  | inf s => rfl
  | nan => rfl

/-- The inlined loop of `ParseTotalGPUs` over the entries of a descriptor adds to
`num_gpus` what the loop of `ReturnGPUCountFromGres` returns. -/
theorem totalEntries_eq (acc : F64) (hacc : acc.IsValue) (es : List (List Char)) :
    totalEntries acc es = (gresLoop (F64.fin 0) es).map (F64.add acc) := by
  induction es with
  | nil => simp [totalEntries, gresLoop, add_zero_of_isValue acc hacc]
  | cons v vs ih =>
    unfold totalEntries gresLoop
    split
    · split <;> (rw [Option.map_map]; rfl)
    · exact ih

theorem totalLoop_eq (lines : List (List Char)) (acc : F64) (hacc : acc.IsValue)
    (h : ∀ line ∈ lines, line ≠ [] → 2 ≤ (Fields (Trim line dquote)).length) :
    totalLoop acc lines =
      (lines.filter (fun l => !l.isEmpty)).foldlM
        (fun acc x =>
          (ReturnGPUCountFromGres (((Fields (Trim x dquote))[1]?).getD [])).map (F64.add acc))
        acc := by
  induction lines generalizing acc with
  | nil => rfl
  | cons line rest ih =>
    have hrest : ∀ l ∈ rest, l ≠ [] → 2 ≤ (Fields (Trim l dquote)).length :=
      fun l hl => h l (List.mem_cons_of_mem _ hl)
    cases line with
    | nil =>
      simp only [totalLoop, List.length_nil, lt_self_iff_false, if_false]
      rw [ih acc hacc hrest]
      rfl
    | cons c cs =>
      have h2 := h (c :: cs) (List.mem_cons_self _ _) (by simp)
      obtain ⟨d, hd⟩ : ∃ d, (Fields (Trim (c :: cs) dquote))[1]? = some d := by
        rw [List.getElem?_eq_getElem (by omega)]
        exact ⟨_, rfl⟩
      have hf : List.filter (fun l => !l.isEmpty) ((c :: cs) :: rest)
          = (c :: cs) :: List.filter (fun l => !l.isEmpty) rest := by
        simp
      rw [hf, List.foldlM_cons]
      simp only [totalLoop, List.length_cons, Nat.zero_lt_succ, if_true, hd, Option.getD_some]
      rw [totalEntries_eq acc hacc]
      unfold ReturnGPUCountFromGres
      cases hg : gresLoop (F64.fin 0) (Split d ',') with
      | none => rfl
      | some g =>
        simp only [Option.map_some']
        rw [ih (F64.add acc g) (add_isValue acc g) hrest]
        rfl

theorem ParseTotalGPUs_eq (output : List Char)
    (h : ∀ line ∈ Split output newline, line ≠ [] → 2 ≤ (Fields (Trim line dquote)).length) :
    ParseTotalGPUs output =
      sumCounts
        (fun line => ReturnGPUCountFromGres (((Fields (Trim line dquote))[1]?).getD []))
        (nonEmptyLines output) := by
  unfold ParseTotalGPUs sumCounts nonEmptyLines
  split
  · exact totalLoop_eq _ _ zero_isValue h
  · rename_i hlen
    have : output = [] := by
      cases output with
      | nil => rfl
      | cons c cs => simp at hlen
    subst this
    rfl

theorem allocLoop_eq (lines : List (List Char)) (acc : F64) :
    allocLoop acc lines =
      (lines.filter (fun l => !l.isEmpty)).foldlM
        (fun acc x => (ParseAllocTRES (Trim x dquote)).map (F64.add acc)) acc := by
  induction lines generalizing acc with
  | nil => rfl
  | cons line rest ih =>
    cases line with
    | nil =>
      simp only [allocLoop, List.length_nil, lt_self_iff_false, if_false]
      rw [ih acc]
      rfl
    | cons c cs =>
      have hf : List.filter (fun l => !l.isEmpty) ((c :: cs) :: rest)
          = (c :: cs) :: List.filter (fun l => !l.isEmpty) rest := by
        simp
      rw [hf, List.foldlM_cons]
      simp only [allocLoop, List.length_cons, Nat.zero_lt_succ, if_true]
      cases hg : ParseAllocTRES (Trim (c :: cs) dquote) with
      | none => rfl
      | some g =>
        simp only [Option.map_some']
        rw [ih (F64.add acc g)]
        rfl

theorem ParseAllocatedGPUs_eq (output : List Char) :
    ParseAllocatedGPUs output =
      sumCounts (fun line => ParseAllocTRES (Trim line dquote)) (nonEmptyLines output) := by
  unfold ParseAllocatedGPUs sumCounts nonEmptyLines
  split
  · exact allocLoop_eq _ _
  · rename_i hlen
    have : output = [] := by
      cases output with
      | nil => rfl
      | cons c cs => simp at hlen
    subst this
    rfl

theorem add_natCast (a b : ℕ) (h : a + b ≤ 2 ^ 53) :
    F64.add (F64.fin a) (F64.fin b) = F64.fin ((a + b : ℕ) : ℚ) := by
  simp only [F64.add]
  rw [← Nat.cast_add]
  exact roundF64_natCast _ h

theorem sumFrom_cons (count : List Char → Option F64) (x : List Char) (xs : List (List Char))
    (acc g : F64) (h : count x = some g) :
    List.foldlM (fun acc x => (count x).map (F64.add acc)) acc (x :: xs)
      = List.foldlM (fun acc x => (count x).map (F64.add acc)) (F64.add acc g) xs := by
  rw [List.foldlM_cons, h]
  rfl

theorem ParseFloat_small (n : ℕ) (hn : n ≤ 2 ^ 53) (s : List Char)
    (hs : s = (Nat.repr n).toList) : (ParseFloat s).1 = F64.fin n := by
  rw [hs, ParseFloat_repr n hn]

/-- Claim C8: for every `sinfo` output in which each non-empty line, after trimming the
double quotes around it, has at least two whitespace-separated fields, the value
computed by the inlined parsing of `ParseTotalGPUs` is the sum, over the non-empty
lines in order, of `ReturnGPUCountFromGres` applied to the second field of the
trimmed line (a panic of one being a panic of the other). -/
theorem total_refines_gres_sum (output : List Char)
    (h : ∀ line ∈ Split output newline, line ≠ [] → 2 ≤ (Fields (Trim line dquote)).length) :
    ParseTotalGPUs output =
      sumCounts
        (fun line => ReturnGPUCountFromGres (((Fields (Trim line dquote))[1]?).getD []))
        (nonEmptyLines output) :=
  ParseTotalGPUs_eq output h

/-- Witness of `total_refines_gres_sum`: the three descriptors of the specification,
`gpu:2`, `gpu:3` and `cpu:8`, on three node lines (one of them quoted); the sum and
the total are 5. -/
theorem total_refines_gres_sum_witness :
    (∀ line ∈ Split "n1 gpu:2\n\"n2 gpu:3\"\nn3 cpu:8\n".toList newline, line ≠ [] →
      2 ≤ (Fields (Trim line dquote)).length) ∧
    ParseTotalGPUs "n1 gpu:2\n\"n2 gpu:3\"\nn3 cpu:8\n".toList =
      sumCounts
        (fun line => ReturnGPUCountFromGres (((Fields (Trim line dquote))[1]?).getD []))
        (nonEmptyLines "n1 gpu:2\n\"n2 gpu:3\"\nn3 cpu:8\n".toList) ∧
    ParseTotalGPUs "n1 gpu:2\n\"n2 gpu:3\"\nn3 cpu:8\n".toList = some (F64.fin 5) := by
  have hyp : ∀ line ∈ Split "n1 gpu:2\n\"n2 gpu:3\"\nn3 cpu:8\n".toList newline, line ≠ [] →
      2 ≤ (Fields (Trim line dquote)).length := by decide
  have h := total_refines_gres_sum "n1 gpu:2\n\"n2 gpu:3\"\nn3 cpu:8\n".toList hyp
  refine ⟨hyp, h, ?_⟩
  rw [h]
  have hl : nonEmptyLines "n1 gpu:2\n\"n2 gpu:3\"\nn3 cpu:8\n".toList
      = ["n1 gpu:2".toList, "\"n2 gpu:3\"".toList, "n3 cpu:8".toList] := by decide
  have h1 : ReturnGPUCountFromGres (((Fields (Trim "n1 gpu:2".toList dquote))[1]?).getD [])
      = some (F64.fin ((2 : ℕ) : ℚ)) := by
    rw [gres_first_match _ [] [] "gpu:2".toList "2".toList (by decide) (by decide) (by decide)
      (by decide), ParseFloat_small 2 (by norm_num) _ (by decide)]
  have h2 : ReturnGPUCountFromGres (((Fields (Trim "\"n2 gpu:3\"".toList dquote))[1]?).getD [])
      = some (F64.fin ((3 : ℕ) : ℚ)) := by
    rw [gres_first_match _ [] [] "gpu:3".toList "3".toList (by decide) (by decide) (by decide)
      (by decide), ParseFloat_small 3 (by norm_num) _ (by decide)]
  have h3 : ReturnGPUCountFromGres (((Fields (Trim "n3 cpu:8".toList dquote))[1]?).getD [])
      = some (F64.fin ((0 : ℕ) : ℚ)) := by
    rw [gres_no_match _ (by decide)]; simp
  have z : F64.fin 0 = F64.fin ((0 : ℕ) : ℚ) := by simp
  unfold sumCounts
  rw [hl, z,
    sumFrom_cons (fun line => ReturnGPUCountFromGres (((Fields (Trim line dquote))[1]?).getD []))
      _ _ _ _ h1, add_natCast 0 2 (by norm_num),
    sumFrom_cons (fun line => ReturnGPUCountFromGres (((Fields (Trim line dquote))[1]?).getD []))
      _ _ _ _ h2, add_natCast _ 3 (by norm_num),
    sumFrom_cons (fun line => ReturnGPUCountFromGres (((Fields (Trim line dquote))[1]?).getD []))
      _ _ _ _ h3, add_natCast _ 0 (by norm_num)]
  simp [List.foldlM]

/-- Claim C9: for every `squeue` output, the value computed by `ParseAllocatedGPUs` is
the sum, over the non-empty lines in order, of `ParseAllocTRES` applied to the line
with its leading and trailing double quotes trimmed; an empty output gives 0, empty
lines add nothing, and the job lines `gres/gpu=1`, `gres/gpu=2` give 3. -/
theorem allocated_is_sum :
    (∀ output : List Char,
      ParseAllocatedGPUs output =
        sumCounts (fun line => ParseAllocTRES (Trim line dquote)) (nonEmptyLines output)) ∧
    ParseAllocatedGPUs [] = some (F64.fin 0) ∧
    ParseAllocatedGPUs "\n\n".toList = some (F64.fin 0) ∧
    ParseAllocatedGPUs "gres/gpu=1\n\n\"gres/gpu=2\"\n".toList = some (F64.fin 3) := by
  refine ⟨ParseAllocatedGPUs_eq, by decide, by decide, ?_⟩
  rw [ParseAllocatedGPUs_eq]
  have hl : nonEmptyLines "gres/gpu=1\n\n\"gres/gpu=2\"\n".toList
      = ["gres/gpu=1".toList, "\"gres/gpu=2\"".toList] := by decide
  have h1 : ParseAllocTRES (Trim "gres/gpu=1".toList dquote) = some (F64.fin ((1 : ℕ) : ℚ)) := by
    rw [tres_first_match _ [] [] "gres/gpu=1".toList "1".toList (by decide) (by decide)
      (by decide) (by decide), ParseFloat_small 1 (by norm_num) _ (by decide)]
  have h2 : ParseAllocTRES (Trim "\"gres/gpu=2\"".toList dquote)
      = some (F64.fin ((2 : ℕ) : ℚ)) := by
    rw [tres_first_match _ [] [] "gres/gpu=2".toList "2".toList (by decide) (by decide)
      (by decide) (by decide), ParseFloat_small 2 (by norm_num) _ (by decide)]
  have z : F64.fin 0 = F64.fin ((0 : ℕ) : ℚ) := by simp
  unfold sumCounts
  rw [hl, z,
    sumFrom_cons (fun line => ParseAllocTRES (Trim line dquote)) _ _ _ _ h1,
    add_natCast 0 1 (by norm_num),
    sumFrom_cons (fun line => ParseAllocTRES (Trim line dquote)) _ _ _ _ h2,
    add_natCast _ 2 (by norm_num)]
  simp [List.foldlM]

/-! ## The claims about the snapshot -/

theorem sub_natCast (t a : ℕ) (ht : t ≤ 2 ^ 53) (ha : a ≤ 2 ^ 53) :
    F64.sub (F64.fin t) (F64.fin a) = F64.fin (((t : ℤ) - (a : ℤ) : ℤ) : ℚ) := by
  simp only [F64.sub, F64.neg, F64.add]
  have e : (t : ℚ) + -(a : ℚ) = (((t : ℤ) - (a : ℤ) : ℤ) : ℚ) := by push_cast; ring
  rw [e]
  exact roundF64_intCast _ (by omega)

theorem idle_add_alloc (t a : ℕ) (ht : t ≤ 2 ^ 53) (ha : a ≤ 2 ^ 53) :
    F64.add (F64.sub (F64.fin t) (F64.fin a)) (F64.fin a) = F64.fin t := by
  rw [sub_natCast t a ht ha]
  simp only [F64.add]
  have e : (((t : ℤ) - (a : ℤ) : ℤ) : ℚ) + (a : ℚ) = ((t : ℕ) : ℚ) := by push_cast; ring
  rw [e]
  exact roundF64_natCast t ht

/-- Claim C10, amended: when the collectors return `total` and `alloc`,
`ParseGPUsMetrics` returns a snapshot whose alloc field is `alloc`, whose total field is
`total`, whose idle field is the `float64` difference `total - alloc` and whose
utilization field is the `float64` quotient `alloc / total`; and `idle + alloc = total`
when `total` and `alloc` are natural numbers up to `2 ^ 53`. -/
theorem snapshot_fields (sinfo squeue : List Char) (total alloc : F64)
    (ht : ParseTotalGPUs sinfo = some total) (ha : ParseAllocatedGPUs squeue = some alloc) :
    ∃ gm : GPUsMetrics, ParseGPUsMetrics sinfo squeue = some gm ∧
      gm.alloc = alloc ∧ gm.total = total ∧
      gm.idle = F64.sub total alloc ∧
      gm.utilization = F64.div alloc total ∧
      (∀ T A : ℕ, total = F64.fin T → alloc = F64.fin A → T ≤ 2 ^ 53 → A ≤ 2 ^ 53 →
        F64.add gm.idle gm.alloc = gm.total) := by
  refine ⟨⟨alloc, F64.sub total alloc, total, F64.div alloc total⟩, ?_, rfl, rfl, rfl, rfl, ?_⟩
  · unfold ParseGPUsMetrics
    rw [ht, ha]
  · intro T A hT hA hT53 hA53
    subst hT hA
    exact idle_add_alloc T A hT53 hA53

theorem zero_add_of_isValue (x : F64) (hx : x.IsValue) : F64.add (F64.fin 0) x = x := by
  cases x with
  | fin a =>
    simp only [F64.add, zero_add]
    exact hx
  | inf s => rfl
  | nan => rfl

theorem ParseTotalGPUs_one_line (output line d f : List Char) (v : F64) (hv : v.IsValue)
    (hl : nonEmptyLines output = [line])
    (hyp : ∀ l ∈ Split output newline, l ≠ [] → 2 ≤ (Fields (Trim l dquote)).length)
    (hd : ((Fields (Trim line dquote))[1]?).getD [] = d)
    (hs : Split d ',' = [d]) (hm : regexpMatch "gpu:*" d = true)
    (hf : gresCountField d = some f) (hp : (ParseFloat f).1 = v) :
    ParseTotalGPUs output = some v := by
  have h1 : ReturnGPUCountFromGres (((Fields (Trim line dquote))[1]?).getD []) = some v := by
    rw [hd, gres_first_match d [] [] d f hs (by simp) hm hf, hp]
  rw [ParseTotalGPUs_eq output hyp]
  unfold sumCounts
  rw [hl,
    sumFrom_cons (fun line => ReturnGPUCountFromGres (((Fields (Trim line dquote))[1]?).getD []))
      _ _ _ _ h1, zero_add_of_isValue v hv]
  simp [List.foldlM]

theorem ParseAllocatedGPUs_one_line (output line f : List Char) (v : F64) (hv : v.IsValue)
    (hl : nonEmptyLines output = [line])
    (hs : Split (Trim line dquote) ',' = [Trim line dquote])
    (hm : regexpMatch "gres/gpu=*" (Trim line dquote) = true)
    (hf : (Split (Trim line dquote) '=')[1]? = some f) (hp : (ParseFloat f).1 = v) :
    ParseAllocatedGPUs output = some v := by
  have h1 : ParseAllocTRES (Trim line dquote) = some v := by
    rw [tres_first_match _ [] [] _ f hs (by simp) hm hf, hp]
  rw [ParseAllocatedGPUs_eq output]
  unfold sumCounts
  rw [hl, sumFrom_cons (fun line => ParseAllocTRES (Trim line dquote)) _ _ _ _ h1,
    zero_add_of_isValue v hv]
  simp [List.foldlM]

theorem natCast_isValue (n : ℕ) (hn : n ≤ 2 ^ 53) : (F64.fin n).IsValue :=
  roundF64_natCast n hn

theorem roundF64_even : roundF64 9007199254740994 = F64.fin 9007199254740994 := by
  have hm := roundMag_of_repr 4503599627370497 53 (by norm_num) (by norm_num)
  have e : ((4503599627370497 : ℕ) : ℚ) * (2 : ℚ) ^ ((53 : ℤ) - 52) = 9007199254740994 := by
    norm_num
  rw [e] at hm
  apply roundF64_of_fixed
  · rw [hm]; norm_num
  · rw [zpowQ_1024]
    have h4 : |(9007199254740994 : ℚ)| < (2 : ℚ) ^ (1024 : ℕ) := by
      have h5 : |(9007199254740994 : ℚ)| ≤ (2 : ℚ) ^ (54 : ℕ) := by norm_num
      exact lt_of_le_of_lt h5 (pow_lt_pow_right₀ (by norm_num) (by norm_num))
    exact not_le.mpr h4

theorem ParseFloat_even :
    ParseFloat "9007199254740994".toList = (F64.fin 9007199254740994, none) :=
  ParseFloat_digits _ (by decide) (by decide) 9007199254740994 (by decide) _
    (by exact_mod_cast roundF64_even) (by intro s h; cases h)

/-- Witness of `snapshot_fields`: one node with 4 GPUs and one job with 1 GPU. -/
theorem snapshot_fields_witness :
    ParseTotalGPUs "n1 gpu:4\n".toList = some (F64.fin 4) ∧
    ParseAllocatedGPUs "gres/gpu=1\n".toList = some (F64.fin 1) ∧
    ∃ gm : GPUsMetrics, ParseGPUsMetrics "n1 gpu:4\n".toList "gres/gpu=1\n".toList = some gm ∧
      gm.alloc = F64.fin 1 ∧ gm.total = F64.fin 4 ∧
      gm.idle = F64.sub (F64.fin 4) (F64.fin 1) ∧
      gm.utilization = F64.div (F64.fin 1) (F64.fin 4) ∧
      (∀ T A : ℕ, F64.fin 4 = F64.fin T → F64.fin 1 = F64.fin A → T ≤ 2 ^ 53 → A ≤ 2 ^ 53 →
        F64.add gm.idle gm.alloc = gm.total) := by
  have ht : ParseTotalGPUs "n1 gpu:4\n".toList = some (F64.fin 4) := by
    have := ParseTotalGPUs_one_line "n1 gpu:4\n".toList "n1 gpu:4".toList "gpu:4".toList
      "4".toList (F64.fin ((4 : ℕ) : ℚ)) (natCast_isValue 4 (by norm_num)) (by decide)
      (by decide) (by decide) (by decide) (by decide)
      (by decide) (ParseFloat_small 4 (by norm_num) _ (by decide))
    simpa using this
  have ha : ParseAllocatedGPUs "gres/gpu=1\n".toList = some (F64.fin 1) := by
    have := ParseAllocatedGPUs_one_line "gres/gpu=1\n".toList "gres/gpu=1".toList
      "1".toList (F64.fin ((1 : ℕ) : ℚ)) (natCast_isValue 1 (by norm_num)) (by decide)
      (by decide) (by decide) (by decide)
      (ParseFloat_small 1 (by norm_num) _ (by decide))
    simpa using this
  exact ⟨ht, ha, snapshot_fields _ _ _ _ ht ha⟩

/-- Counterexample to claim C10 as stated, at two pairs of outputs.  With 2 ^ 53 + 2
GPUs in total and 1 allocated, the difference is rounded and `idle + alloc` is not
`total`.  With an infinite total and an infinite allocation (the count `inf` is a
numeral for `ParseFloat`), `total > 0`, idle is NaN and `idle + alloc` is not `total`. -/
theorem snapshot_idle_plus_alloc_ne_total :
    (∃ gm : GPUsMetrics,
      ParseGPUsMetrics "n1 gpu:9007199254740994".toList "gres/gpu=1".toList = some gm ∧
      gm.total = F64.fin 9007199254740994 ∧ gm.alloc = F64.fin 1 ∧
      gm.idle = F64.fin 9007199254740992 ∧
      F64.add gm.idle gm.alloc = F64.fin 9007199254740992 ∧
      F64.add gm.idle gm.alloc ≠ gm.total) ∧
    (∃ gm : GPUsMetrics,
      ParseGPUsMetrics "n1 gpu:inf".toList "gres/gpu=inf".toList = some gm ∧
      gm.total = F64.inf false ∧ gm.alloc = F64.inf false ∧ F64.isPos gm.total = true ∧
      gm.idle = F64.nan ∧
      F64.add gm.idle gm.alloc ≠ gm.total) := by
  constructor
  · have ht : ParseTotalGPUs "n1 gpu:9007199254740994".toList
        = some (F64.fin 9007199254740994) := by
      have := ParseTotalGPUs_one_line "n1 gpu:9007199254740994".toList
        "n1 gpu:9007199254740994".toList "gpu:9007199254740994".toList
        "9007199254740994".toList (F64.fin 9007199254740994) roundF64_even (by decide)
        (by decide) (by decide) (by decide) (by decide) (by decide)
        (by rw [ParseFloat_even])
      exact this
    have ha : ParseAllocatedGPUs "gres/gpu=1".toList = some (F64.fin 1) := by
      have := ParseAllocatedGPUs_one_line "gres/gpu=1".toList "gres/gpu=1".toList
        "1".toList (F64.fin ((1 : ℕ) : ℚ)) (natCast_isValue 1 (by norm_num)) (by decide)
        (by decide) (by decide) (by decide)
        (ParseFloat_small 1 (by norm_num) _ (by decide))
      simpa using this
    have hidle : F64.sub (F64.fin 9007199254740994) (F64.fin 1) = F64.fin 9007199254740992 := by
      simp only [F64.sub, F64.neg, F64.add]
      have e : (9007199254740994 : ℚ) + -1 = 9007199254740993 := by norm_num
      rw [e, roundF64_tie]
    have hsum : F64.add (F64.fin 9007199254740992) (F64.fin 1) = F64.fin 9007199254740992 := by
      simp only [F64.add]
      have e : (9007199254740992 : ℚ) + 1 = 9007199254740993 := by norm_num
      rw [e, roundF64_tie]
    refine ⟨⟨F64.fin 1, F64.sub (F64.fin 9007199254740994) (F64.fin 1),
      F64.fin 9007199254740994, F64.div (F64.fin 1) (F64.fin 9007199254740994)⟩,
      ?_, rfl, rfl, hidle, ?_, ?_⟩
    · unfold ParseGPUsMetrics
      rw [ht, ha]
    · show F64.add (F64.sub (F64.fin 9007199254740994) (F64.fin 1)) (F64.fin 1) = _
      rw [hidle, hsum]
    · show F64.add (F64.sub (F64.fin 9007199254740994) (F64.fin 1)) (F64.fin 1) ≠ _
      rw [hidle, hsum]
      intro h
      injection h with h
      norm_num at h
  · exact ⟨⟨F64.inf false, F64.nan, F64.inf false, F64.nan⟩, by decide, rfl, rfl, rfl, rfl,
      by decide⟩

/-! ## Lemmas on lines and sums -/

theorem splitBy_append (p : Char → Bool) (a b : List Char) (c : Char) (hc : p c = true) :
    splitBy p (a ++ c :: b) = splitBy p a ++ splitBy p b := by
  induction a with
  | nil => simp [splitBy, hc]
  | cons x xs ih =>
    by_cases hx : p x = true
    · simp [splitBy, hx, ih]
    · have hx' : p x = false := by simpa using hx
      cases hs : splitBy p xs with
      | nil => exact absurd hs (splitBy_ne_nil p xs)
      | cons f fs =>
        rw [hs] at ih
        have ih' : splitBy p (xs.append (c :: b)) = f :: fs ++ splitBy p b := ih
        simp only [List.cons_append, splitBy, hx', Bool.false_eq_true, if_false, hs]
        rw [ih']
        rfl

theorem splitBy_pieces (p : Char → Bool) (s : List Char) :
    ∀ l ∈ splitBy p s, ∀ x ∈ l, p x = false := by
  induction s with
  | nil => simp [splitBy]
  | cons c cs ih =>
    by_cases hc : p c = true
    · simp only [splitBy, hc, if_true]
      intro l hl
      rcases List.mem_cons.mp hl with rfl | hl
      · simp
      · exact ih l hl
    · have hc' : p c = false := by simpa using hc
      simp only [splitBy, hc', Bool.false_eq_true, if_false]
      cases hs : splitBy p cs with
      | nil => exact absurd hs (splitBy_ne_nil p cs)
      | cons f fs =>
        rw [hs] at ih
        intro l hl
        rcases List.mem_cons.mp hl with rfl | hl
        · intro x hx
          rcases List.mem_cons.mp hx with rfl | hx
          · exact hc'
          · exact ih f (List.mem_cons_self _ _) x hx
        · exact ih l (List.mem_cons_of_mem _ hl)

theorem Split_lines_no_newline (s : List Char) : ∀ l ∈ Split s newline, newline ∉ l := by
  intro l hl hmem
  have := splitBy_pieces _ s l hl newline hmem
  simp at this

theorem Split_joinLines (ls : List (List Char)) (hne : ls ≠ [])
    (h : ∀ l ∈ ls, newline ∉ l) : Split (joinLines ls) newline = ls := by
  induction ls with
  | nil => exact absurd rfl hne
  | cons l rest ih =>
    cases rest with
    | nil =>
      simp only [joinLines]
      exact Split_single l newline (h l (List.mem_cons_self _ _))
    | cons m ms =>
      simp only [joinLines]
      rw [Split_cons_sep l _ newline (h l (List.mem_cons_self _ _)),
        ih (by simp) (fun x hx => h x (List.mem_cons_of_mem _ hx))]

theorem nonEmptyLines_joinLines (ls : List (List Char)) (h : ∀ l ∈ ls, newline ∉ l) :
    nonEmptyLines (joinLines ls) = ls.filter (fun l => !l.isEmpty) := by
  cases ls with
  | nil => rfl
  | cons l rest =>
    unfold nonEmptyLines
    rw [Split_joinLines _ (by simp) h]

theorem nonEmptyLines_append (a b : List Char) :
    nonEmptyLines (a ++ newline :: b) = nonEmptyLines a ++ nonEmptyLines b := by
  unfold nonEmptyLines Split
  rw [splitBy_append _ a b newline (by simp), List.filter_append]

theorem nonEmptyLines_terminated (a : List Char) :
    nonEmptyLines (a ++ [newline]) = nonEmptyLines a := by
  rw [nonEmptyLines_append]
  simp [nonEmptyLines, Split, splitBy]

theorem totalLoop_lines (lines : List (List Char)) (acc : F64) (hacc : acc.IsValue) :
    totalLoop acc lines =
      (lines.filter (fun l => !l.isEmpty)).foldlM
        (fun acc x => (nodeLineCount x).map (F64.add acc)) acc := by
  induction lines generalizing acc with
  | nil => rfl
  | cons line rest ih =>
    cases line with
    | nil =>
      simp only [totalLoop, List.length_nil, lt_self_iff_false, if_false]
      rw [ih acc hacc]
      rfl
    | cons c cs =>
      have hf : List.filter (fun l => !l.isEmpty) ((c :: cs) :: rest)
          = (c :: cs) :: List.filter (fun l => !l.isEmpty) rest := by
        simp
      rw [hf, List.foldlM_cons]
      simp only [totalLoop, List.length_cons, Nat.zero_lt_succ, if_true, nodeLineCount]
      cases hd : (Fields (Trim (c :: cs) dquote))[1]? with
      | none => rfl
      | some d =>
        simp only []
        rw [totalEntries_eq acc hacc]
        unfold ReturnGPUCountFromGres
        cases hg : gresLoop (F64.fin 0) (Split d ',') with
        | none => rfl
        | some g =>
          simp only [Option.map_some']
          rw [ih (F64.add acc g) (add_isValue acc g)]
          rfl

/-- The total of `ParseTotalGPUs` is the sum of the counts of the non-empty lines, and
a panic when a line has no count. -/
theorem ParseTotalGPUs_lines (output : List Char) :
    ParseTotalGPUs output = sumCounts nodeLineCount (nonEmptyLines output) := by
  unfold ParseTotalGPUs sumCounts nonEmptyLines
  split
  · exact totalLoop_lines _ _ zero_isValue
  · rename_i hlen
    have : output = [] := by
      cases output with
      | nil => rfl
      | cons c cs => simp at hlen
    subst this
    rfl

theorem ParseAllocatedGPUs_lines (output : List Char) :
    ParseAllocatedGPUs output = sumCounts jobLineCount (nonEmptyLines output) :=
  ParseAllocatedGPUs_eq output

/-- The sum of counts that are natural numbers with a sum up to `2 ^ 53` is that sum. -/
theorem foldlM_natCounts (count : List Char → Option F64) (c : List Char → ℕ)
    (items : List (List Char)) (a : ℕ)
    (hc : ∀ x ∈ items, count x = some (F64.fin (c x)))
    (hsum : a + (items.map c).sum ≤ 2 ^ 53) :
    List.foldlM (fun acc x => (count x).map (F64.add acc)) (F64.fin (a : ℚ)) items
      = some (F64.fin ((a + (items.map c).sum : ℕ) : ℚ)) := by
  induction items generalizing a with
  | nil => simp [List.foldlM]
  | cons x xs ih =>
    have hx := hc x (List.mem_cons_self _ _)
    have hxs : ∀ y ∈ xs, count y = some (F64.fin (c y)) :=
      fun y hy => hc y (List.mem_cons_of_mem _ hy)
    simp only [List.map_cons, List.sum_cons] at hsum ⊢
    rw [sumFrom_cons count x xs _ _ hx, add_natCast a (c x) (by omega),
      ih (a + c x) hxs (by omega)]
    congr 3
    omega

theorem sumCounts_natCounts (count : List Char → Option F64) (c : List Char → ℕ)
    (items : List (List Char))
    (hc : ∀ x ∈ items, count x = some (F64.fin (c x)))
    (hsum : (items.map c).sum ≤ 2 ^ 53) :
    sumCounts count items = some (F64.fin (((items.map c).sum : ℕ) : ℚ)) := by
  have h := foldlM_natCounts count c items 0 hc (by omega)
  unfold sumCounts
  simp only [Nat.cast_zero, zero_add] at h
  exact h

theorem foldlM_isSome (count : List Char → Option F64) (items : List (List Char)) (acc : F64)
    (hc : ∀ x ∈ items, ∃ g, count x = some g) :
    ∃ r, List.foldlM (fun acc x => (count x).map (F64.add acc)) acc items = some r := by
  induction items generalizing acc with
  | nil => exact ⟨acc, rfl⟩
  | cons x xs ih =>
    obtain ⟨g, hg⟩ := hc x (List.mem_cons_self _ _)
    rw [sumFrom_cons count x xs acc g hg]
    exact ih _ (fun y hy => hc y (List.mem_cons_of_mem _ hy))

theorem roundF64_nonneg (q : ℚ) (hq : 0 ≤ q) : (roundF64 q).isNonneg = true := by
  unfold roundF64
  have h : ¬ q < 0 := not_lt.mpr hq
  split
  · simp [F64.isNonneg, h]
  · simp [F64.isNonneg, h, roundMag_nonneg q]

theorem add_nonneg_of_nonneg (x y : F64) (hx : x.isNonneg = true) (hy : y.isNonneg = true) :
    (F64.add x y).isNonneg = true := by
  cases x with
  | fin a =>
    cases y with
    | fin b =>
      simp only [F64.isNonneg, decide_eq_true_eq] at hx hy
      exact roundF64_nonneg _ (add_nonneg hx hy)
    | inf s => simpa [F64.add, F64.isNonneg] using hy
    | nan => simp [F64.isNonneg] at hy
  | inf s =>
    cases y with
    | fin b => simpa [F64.add, F64.isNonneg] using hx
    | inf t =>
      simp only [F64.isNonneg, Bool.not_eq_true'] at hx hy
      subst hx hy
      simp [F64.add, F64.isNonneg]
    | nan => simp [F64.isNonneg] at hy
  | nan => simp [F64.isNonneg] at hx

theorem foldlM_nonneg (count : List Char → Option F64) (items : List (List Char)) (acc r : F64)
    (hacc : acc.isNonneg = true)
    (hc : ∀ x ∈ items, ∀ g, count x = some g → g.isNonneg = true)
    (h : List.foldlM (fun acc x => (count x).map (F64.add acc)) acc items = some r) :
    r.isNonneg = true := by
  induction items generalizing acc with
  | nil =>
    simp only [List.foldlM, pure] at h
    cases h
    exact hacc
  | cons x xs ih =>
    cases hg : count x with
    | none =>
      rw [List.foldlM_cons, hg] at h
      cases h
    | some g =>
      rw [sumFrom_cons count x xs acc g hg] at h
      exact ih _ (add_nonneg_of_nonneg acc g hacc (hc x (List.mem_cons_self _ _) g hg))
        (fun y hy => hc y (List.mem_cons_of_mem _ hy)) h

/-! ## The claims about the pipeline -/

theorem nodeLineCount_eq (line d : List Char) (h : (Fields (Trim line dquote))[1]? = some d) :
    nodeLineCount line = ReturnGPUCountFromGres d := by
  unfold nodeLineCount
  rw [h]

/-- The quotient of 2 by 3 in `float64`: the nearest value below `2 / 3`. -/
theorem roundF64_two_thirds :
    roundF64 (2 / 3) = F64.fin (6004799503160661 / 9007199254740992) := by
  have hq : (0 : ℚ) < 2 / 3 := by norm_num
  have hil : ilog2 (2 / 3) = -1 := by
    apply le_antisymm
    · have := ilog2_lt_of_lt (2 / 3) hq 0 (by norm_num)
      omega
    · exact le_ilog2_of_le (2 / 3) hq (-1) (by norm_num)
  have hb : binade (2 / 3) = -1 := by unfold binade; rw [hil]; rfl
  have hquot : (2 / 3 : ℚ) / ((2 : ℕ) : ℚ) ^ ((-1 : ℤ) - 52) = 18014398509481984 / 3 := by
    have : ((2 : ℕ) : ℚ) ^ ((-1 : ℤ) - 52) = 1 / 9007199254740992 := by
      norm_num [zpow_neg]
    rw [this]; norm_num
  have hfl : ⌊((18014398509481984 : ℚ) / 3)⌋₊ = 6004799503160661 := by
    rw [Nat.floor_eq_iff (by norm_num)]
    constructor <;> norm_num
  have hm : roundMag (2 / 3) = 6004799503160661 / 9007199254740992 := by
    unfold roundMag
    rw [abs_of_pos hq, hb, zpowQ_eq, hquot]
    have h2 : ((2 : ℕ) : ℚ) ^ ((-1 : ℤ) - 52) = 1 / 9007199254740992 := by
      norm_num [zpow_neg]
    rw [h2]
    unfold roundHalfEven
    rw [hfl]
    norm_num
  unfold roundF64
  rw [hm, zpowQ_1024]
  have h1 : ¬ ((2 : ℚ) ^ (1024 : ℕ) ≤ 6004799503160661 / 9007199254740992) := by
    have h4 : (6004799503160661 / 9007199254740992 : ℚ) < (2 : ℚ) ^ (1024 : ℕ) := by
      have h5 : (6004799503160661 / 9007199254740992 : ℚ) < 1 := by norm_num
      exact lt_of_lt_of_le h5 (one_le_pow₀ (by norm_num))
    exact not_le.mpr h4
  rw [if_neg h1]
  norm_num

theorem end_to_end_total :
    ParseTotalGPUs "node01 gpu:2\nnode02 gpu:v100:1\n".toList = some (F64.fin 3) := by
  have hl : nonEmptyLines "node01 gpu:2\nnode02 gpu:v100:1\n".toList
      = ["node01 gpu:2".toList, "node02 gpu:v100:1".toList] := by decide
  have h1 : nodeLineCount "node01 gpu:2".toList = some (F64.fin ((2 : ℕ) : ℚ)) := by
    rw [nodeLineCount_eq _ "gpu:2".toList (by decide),
      gres_first_match _ [] [] "gpu:2".toList "2".toList (by decide) (by decide) (by decide)
        (by decide), ParseFloat_small 2 (by norm_num) _ (by decide)]
  have h2 : nodeLineCount "node02 gpu:v100:1".toList = some (F64.fin ((1 : ℕ) : ℚ)) := by
    rw [nodeLineCount_eq _ "gpu:v100:1".toList (by decide),
      gres_first_match _ [] [] "gpu:v100:1".toList "1".toList (by decide) (by decide)
        (by decide) (by decide), ParseFloat_small 1 (by norm_num) _ (by decide)]
  have z : F64.fin 0 = F64.fin ((0 : ℕ) : ℚ) := by simp
  rw [ParseTotalGPUs_lines]
  unfold sumCounts
  rw [hl, z, sumFrom_cons nodeLineCount _ _ _ _ h1, add_natCast 0 2 (by norm_num),
    sumFrom_cons nodeLineCount _ _ _ _ h2, add_natCast _ 1 (by norm_num)]
  simp [List.foldlM]

theorem end_to_end_alloc :
    ParseAllocatedGPUs "gres/gpu=1\ngres/gpu=1\n".toList = some (F64.fin 2) := by
  have hl : nonEmptyLines "gres/gpu=1\ngres/gpu=1\n".toList
      = ["gres/gpu=1".toList, "gres/gpu=1".toList] := by decide
  have h1 : jobLineCount "gres/gpu=1".toList = some (F64.fin ((1 : ℕ) : ℚ)) := by
    unfold jobLineCount
    rw [tres_first_match _ [] [] "gres/gpu=1".toList "1".toList (by decide) (by decide)
      (by decide) (by decide), ParseFloat_small 1 (by norm_num) _ (by decide)]
  have z : F64.fin 0 = F64.fin ((0 : ℕ) : ℚ) := by simp
  rw [ParseAllocatedGPUs_lines]
  unfold sumCounts
  rw [hl, z, sumFrom_cons jobLineCount _ _ _ _ h1, add_natCast 0 1 (by norm_num),
    sumFrom_cons jobLineCount _ _ _ _ h1, add_natCast _ 1 (by norm_num)]
  simp [List.foldlM]

/-- Claim C11: on the node listing `node01 gpu:2`, `node02 gpu:v100:1` and the job
listing `gres/gpu=1`, `gres/gpu=1`, the pipeline yields the snapshot with total 3,
alloc 2, idle 1 and, for the utilization, the `float64` quotient of 2 by 3: the
`float64` nearest to `2 / 3`, which is 0.6667 to four decimals. -/
theorem end_to_end_snapshot :
    ParseTotalGPUs "node01 gpu:2\nnode02 gpu:v100:1\n".toList = some (F64.fin 3) ∧
    ParseAllocatedGPUs "gres/gpu=1\ngres/gpu=1\n".toList = some (F64.fin 2) ∧
    ParseGPUsMetrics "node01 gpu:2\nnode02 gpu:v100:1\n".toList
        "gres/gpu=1\ngres/gpu=1\n".toList
      = some { alloc := F64.fin 2, idle := F64.fin 1, total := F64.fin 3,
               utilization := F64.fin (6004799503160661 / 9007199254740992) } ∧
    F64.div (F64.fin 2) (F64.fin 3) = F64.fin (6004799503160661 / 9007199254740992) ∧
    |(6004799503160661 / 9007199254740992 : ℚ) - 2 / 3| ≤ 1 / 2 ^ 54 ∧
    (66665 / 100000 : ℚ) ≤ 6004799503160661 / 9007199254740992 ∧
    (6004799503160661 / 9007199254740992 : ℚ) < 66675 / 100000 := by
  have hdiv : F64.div (F64.fin 2) (F64.fin 3)
      = F64.fin (6004799503160661 / 9007199254740992) := by
    simp only [F64.div]
    rw [if_neg (by norm_num), roundF64_two_thirds]
  have hsub : F64.sub (F64.fin 3) (F64.fin 2) = F64.fin 1 := by
    have := sub_natCast 3 2 (by norm_num) (by norm_num)
    simpa using this
  refine ⟨end_to_end_total, end_to_end_alloc, ?_, hdiv, ?_, by norm_num, by norm_num⟩
  · unfold ParseGPUsMetrics
    rw [end_to_end_total, end_to_end_alloc]
    simp only [hsub, hdiv]
  · rw [abs_le]
    constructor <;> norm_num

/-- The value read by `readFloat` from a decimal numeral without underscores, in terms
of the results of its two loops. -/
theorem readFloat_signed (s body rest : List Char) (st : Digits) (e : ℤ)
    (h1 : dropSign s = body) (h2 : hexPrefix body = false)
    (h4 : readDigits false ⟨0, 0, false, false⟩ body = (st, rest))
    (h5 : st.sawdigits = true) (h6 : readExpPart false rest = some (e, []))
    (h7 : '_' ∉ s) :
    readFloat s = some (if isNeg s then -((st.mant : ℚ) * zpowQ 10 (e - (st.frac : ℤ)))
      else (st.mant : ℚ) * zpowQ 10 (e - (st.frac : ℤ))) := by
  unfold readFloat
  dsimp only
  rw [h1, h2]
  simp only [Bool.false_eq_true, if_false]
  rw [h4]
  simp [h5, h6, h7]

theorem ParseFloat_value (s : List Char) (q : ℚ) (v : F64) (hsp : special s = none)
    (hrf : readFloat s = some q) (hr : roundF64 q = v) (hfin : ∀ b, v ≠ F64.inf b) :
    ParseFloat s = (v, none) := by
  unfold ParseFloat
  simp only [hsp, hrf]
  rw [hr]
  split
  · rename_i b; exact absurd rfl (hfin b)
  · rfl

/-- The numeral `-3` parses to the negative number -3. -/
theorem ParseFloat_minus_three : ParseFloat "-3".toList = (F64.fin (-3), none) := by
  have hrf := readFloat_signed "-3".toList "3".toList [] ⟨3, 0, false, true⟩ 0
    (by decide) (by decide) (by decide) rfl (by decide) (by decide)
  have hneg : isNeg "-3".toList = true := by decide
  rw [hneg] at hrf
  have hq : -(((3 : ℕ) : ℚ) * zpowQ 10 (0 - ((0 : ℕ) : ℤ))) = (((-3 : ℤ)) : ℚ) := by
    simp [zpowQ]
  have hr : roundF64 (-(((3 : ℕ) : ℚ) * zpowQ 10 (0 - ((0 : ℕ) : ℤ)))) = F64.fin (-3) := by
    rw [hq, roundF64_intCast (-3) (by decide)]
    norm_num
  simp only [if_true] at hrf
  exact ParseFloat_value _ _ _ (by decide) hrf hr (by intro b h; cases h)

theorem sub_nonneg_of_le (t a : F64) (ht : t.isNonneg = true) (ha : a.isNonneg = true)
    (hle : F64.le a t = true) (hnb : ¬ (a = F64.inf false ∧ t = F64.inf false)) :
    (F64.sub t a).isNonneg = true := by
  cases a with
  | fin x =>
    cases t with
    | fin y =>
      simp only [F64.le, decide_eq_true_eq] at hle
      simp only [F64.sub, F64.neg, F64.add]
      exact roundF64_nonneg _ (by linarith)
    | inf s =>
      simp only [F64.isNonneg, Bool.not_eq_true'] at ht
      subst ht
      simp [F64.sub, F64.neg, F64.add, F64.isNonneg]
    | nan => simp [F64.isNonneg] at ht
  | inf s =>
    simp only [F64.isNonneg, Bool.not_eq_true'] at ha
    subst ha
    cases t with
    | fin y => simp [F64.le] at hle
    | inf s' =>
      simp only [F64.isNonneg, Bool.not_eq_true'] at ht
      subst ht
      exact absurd ⟨rfl, rfl⟩ hnb
    | nan => simp [F64.isNonneg] at ht
  | nan => simp [F64.isNonneg] at ha

theorem div_nonneg_of_pos (a t : F64) (ha : a.isNonneg = true) (ht : t.isPos = true)
    (hnb : ¬ (a = F64.inf false ∧ t = F64.inf false)) :
    (F64.div a t).isNonneg = true := by
  cases a with
  | fin x =>
    simp only [F64.isNonneg, decide_eq_true_eq] at ha
    cases t with
    | fin y =>
      simp only [F64.isPos, decide_eq_true_eq] at ht
      simp only [F64.div]
      rw [if_neg (ne_of_gt ht)]
      exact roundF64_nonneg _ (div_nonneg ha ht.le)
    | inf s => simp [F64.div, F64.isNonneg]
    | nan => simp [F64.isPos] at ht
  | inf s =>
    simp only [F64.isNonneg, Bool.not_eq_true'] at ha
    subst ha
    cases t with
    | fin y =>
      simp only [F64.isPos, decide_eq_true_eq] at ht
      simp [F64.div, F64.isNonneg, not_lt.mpr ht.le]
    | inf s' =>
      simp only [F64.isPos, Bool.not_eq_true'] at ht
      subst ht
      exact absurd ⟨rfl, rfl⟩ hnb
    | nan => simp [F64.isPos] at ht
  | nan => simp [F64.isNonneg] at ha

/-- Claim C12, amended: when every count that the two collectors read from a line is
`>= 0`, the total and alloc fields of the snapshot are `>= 0`; the idle field is
`>= 0` when moreover `alloc <= total`, and the utilization field is `>= 0` when
moreover `total > 0`, both unless alloc and total are both `+Inf`. -/
theorem snapshot_nonneg (sinfo squeue : List Char) (gm : GPUsMetrics)
    (h : ParseGPUsMetrics sinfo squeue = some gm)
    (hn : ∀ l ∈ nonEmptyLines sinfo, ∀ g, nodeLineCount l = some g → g.isNonneg = true)
    (hj : ∀ l ∈ nonEmptyLines squeue, ∀ g, jobLineCount l = some g → g.isNonneg = true) :
    gm.total.isNonneg = true ∧ gm.alloc.isNonneg = true ∧
    (F64.le gm.alloc gm.total = true →
      ¬ (gm.alloc = F64.inf false ∧ gm.total = F64.inf false) → gm.idle.isNonneg = true) ∧
    (gm.total.isPos = true →
      ¬ (gm.alloc = F64.inf false ∧ gm.total = F64.inf false) →
      gm.utilization.isNonneg = true) := by
  unfold ParseGPUsMetrics at h
  cases ht : ParseTotalGPUs sinfo with
  | none => rw [ht] at h; cases h
  | some total =>
    cases ha : ParseAllocatedGPUs squeue with
    | none => rw [ht, ha] at h; cases h
    | some alloc =>
      rw [ht, ha] at h
      simp only [Option.some.injEq] at h
      subst h
      have z : (F64.fin 0).isNonneg = true := by simp [F64.isNonneg]
      have htot : total.isNonneg = true := by
        rw [ParseTotalGPUs_lines] at ht
        exact foldlM_nonneg nodeLineCount _ _ _ z hn ht
      have hall : alloc.isNonneg = true := by
        rw [ParseAllocatedGPUs_lines] at ha
        exact foldlM_nonneg jobLineCount _ _ _ z hj ha
      exact ⟨htot, hall, fun hle hnb => sub_nonneg_of_le total alloc htot hall hle hnb,
        fun hpos hnb => div_nonneg_of_pos alloc total hall hpos hnb⟩

theorem total_four : ParseTotalGPUs "n1 gpu:4\n".toList = some (F64.fin 4) := by
  have := ParseTotalGPUs_one_line "n1 gpu:4\n".toList "n1 gpu:4".toList "gpu:4".toList
    "4".toList (F64.fin ((4 : ℕ) : ℚ)) (natCast_isValue 4 (by norm_num)) (by decide)
    (by decide) (by decide) (by decide) (by decide)
    (by decide) (ParseFloat_small 4 (by norm_num) _ (by decide))
  simpa using this

theorem total_one : ParseTotalGPUs "n1 gpu:1".toList = some (F64.fin 1) := by
  have := ParseTotalGPUs_one_line "n1 gpu:1".toList "n1 gpu:1".toList "gpu:1".toList
    "1".toList (F64.fin ((1 : ℕ) : ℚ)) (natCast_isValue 1 (by norm_num)) (by decide)
    (by decide) (by decide) (by decide) (by decide)
    (by decide) (ParseFloat_small 1 (by norm_num) _ (by decide))
  simpa using this

theorem alloc_one : ParseAllocatedGPUs "gres/gpu=1\n".toList = some (F64.fin 1) := by
  have := ParseAllocatedGPUs_one_line "gres/gpu=1\n".toList "gres/gpu=1".toList
    "1".toList (F64.fin ((1 : ℕ) : ℚ)) (natCast_isValue 1 (by norm_num)) (by decide)
    (by decide) (by decide) (by decide)
    (ParseFloat_small 1 (by norm_num) _ (by decide))
  simpa using this

theorem alloc_two : ParseAllocatedGPUs "gres/gpu=2".toList = some (F64.fin 2) := by
  have := ParseAllocatedGPUs_one_line "gres/gpu=2".toList "gres/gpu=2".toList
    "2".toList (F64.fin ((2 : ℕ) : ℚ)) (natCast_isValue 2 (by norm_num)) (by decide)
    (by decide) (by decide) (by decide)
    (ParseFloat_small 2 (by norm_num) _ (by decide))
  simpa using this

theorem counts_nonneg_of_sum (count : List Char → Option F64) (items : List (List Char))
    (hc : ∀ x ∈ items, ∃ n : ℕ, count x = some (F64.fin (n : ℚ))) :
    ∀ l ∈ items, ∀ g, count l = some g → g.isNonneg = true := by
  intro l hl g hg
  obtain ⟨n, hn⟩ := hc l hl
  rw [hn] at hg
  cases hg
  simp [F64.isNonneg]

/-- Witness of `snapshot_nonneg`: one node with 4 GPUs and one job with 1 GPU; the four
fields are 1, 3, 4 and 0.25. -/
theorem snapshot_nonneg_witness :
    ∃ gm : GPUsMetrics, ParseGPUsMetrics "n1 gpu:4\n".toList "gres/gpu=1\n".toList = some gm ∧
      gm.total = F64.fin 4 ∧ gm.alloc = F64.fin 1 ∧
      gm.total.isNonneg = true ∧ gm.alloc.isNonneg = true ∧
      (F64.le gm.alloc gm.total = true →
        ¬ (gm.alloc = F64.inf false ∧ gm.total = F64.inf false) → gm.idle.isNonneg = true) ∧
      (gm.total.isPos = true →
        ¬ (gm.alloc = F64.inf false ∧ gm.total = F64.inf false) →
        gm.utilization.isNonneg = true) := by
  have h : ParseGPUsMetrics "n1 gpu:4\n".toList "gres/gpu=1\n".toList
      = some ⟨F64.fin 1, F64.sub (F64.fin 4) (F64.fin 1), F64.fin 4,
          F64.div (F64.fin 1) (F64.fin 4)⟩ := by
    unfold ParseGPUsMetrics
    rw [total_four, alloc_one]
  have hn : ∀ l ∈ nonEmptyLines "n1 gpu:4\n".toList, ∀ g, nodeLineCount l = some g →
      g.isNonneg = true := by
    apply counts_nonneg_of_sum
    rw [show nonEmptyLines "n1 gpu:4\n".toList = ["n1 gpu:4".toList] by decide]
    intro x hx
    rw [List.mem_singleton] at hx
    subst hx
    refine ⟨4, ?_⟩
    rw [nodeLineCount_eq _ "gpu:4".toList (by decide),
      gres_first_match _ [] [] "gpu:4".toList "4".toList (by decide) (by decide) (by decide)
        (by decide), ParseFloat_small 4 (by norm_num) _ (by decide)]
  have hj : ∀ l ∈ nonEmptyLines "gres/gpu=1\n".toList, ∀ g, jobLineCount l = some g →
      g.isNonneg = true := by
    apply counts_nonneg_of_sum
    rw [show nonEmptyLines "gres/gpu=1\n".toList = ["gres/gpu=1".toList] by decide]
    intro x hx
    rw [List.mem_singleton] at hx
    subst hx
    refine ⟨1, ?_⟩
    unfold jobLineCount
    rw [tres_first_match _ [] [] "gres/gpu=1".toList "1".toList (by decide) (by decide)
      (by decide) (by decide), ParseFloat_small 1 (by norm_num) _ (by decide)]
  exact ⟨_, h, rfl, rfl, snapshot_nonneg _ _ _ h hn hj⟩

/-- Counterexample to claim C12 as stated.  The count of the entry `gpu:-3` (and of
`gres/gpu=-3`) is -3; with 1 GPU in total and 2 allocated, idle is -1; with two empty
outputs, the utilization is `0 / 0`, NaN, which is not `>= 0`. -/
theorem snapshot_negative_fields :
    (ReturnGPUCountFromGres "gpu:-3".toList = some (F64.fin (-3)) ∧
      ParseAllocTRES "gres/gpu=-3".toList = some (F64.fin (-3)) ∧
      (F64.fin (-3)).isNonneg = false) ∧
    (∃ gm : GPUsMetrics, ParseGPUsMetrics "n1 gpu:1".toList "gres/gpu=2".toList = some gm ∧
      gm.total = F64.fin 1 ∧ gm.alloc = F64.fin 2 ∧ gm.idle = F64.fin (-1) ∧
      gm.idle.isNonneg = false) ∧
    (∃ gm : GPUsMetrics, ParseGPUsMetrics [] [] = some gm ∧
      gm.total = F64.fin 0 ∧ gm.alloc = F64.fin 0 ∧ gm.utilization = F64.nan ∧
      gm.utilization.isNonneg = false) := by
  refine ⟨⟨?_, ?_, by simp [F64.isNonneg]⟩, ?_, ?_⟩
  · rw [gres_first_match "gpu:-3".toList [] [] "gpu:-3".toList "-3".toList
      (by decide) (by decide) (by decide) (by decide), ParseFloat_minus_three]
  · rw [tres_first_match "gres/gpu=-3".toList [] [] "gres/gpu=-3".toList "-3".toList
      (by decide) (by decide) (by decide) (by decide), ParseFloat_minus_three]
  · have hidle : F64.sub (F64.fin 1) (F64.fin 2) = F64.fin (-1) := by
      have := sub_natCast 1 2 (by norm_num) (by norm_num)
      simpa using this
    refine ⟨⟨F64.fin 2, F64.sub (F64.fin 1) (F64.fin 2), F64.fin 1,
      F64.div (F64.fin 2) (F64.fin 1)⟩, ?_, rfl, rfl, hidle, ?_⟩
    · unfold ParseGPUsMetrics
      rw [total_one, alloc_two]
    · show (F64.sub (F64.fin 1) (F64.fin 2)).isNonneg = false
      rw [hidle]
      simp [F64.isNonneg]
  · have ht : ParseTotalGPUs [] = some (F64.fin 0) := rfl
    have ha : ParseAllocatedGPUs [] = some (F64.fin 0) := rfl
    have hdiv : F64.div (F64.fin 0) (F64.fin 0) = F64.nan := by simp [F64.div]
    refine ⟨⟨F64.fin 0, F64.sub (F64.fin 0) (F64.fin 0), F64.fin 0,
      F64.div (F64.fin 0) (F64.fin 0)⟩, ?_, rfl, rfl, hdiv, ?_⟩
    · unfold ParseGPUsMetrics
      rw [ht, ha]
    · show (F64.div (F64.fin 0) (F64.fin 0)).isNonneg = false
      rw [hdiv]
      rfl

/-! ## The claims about the choice of the entry and of its field -/

/-- Claim C13, amended: when the first matched entry of a descriptor splits on `:` into
`k >= 2` fields, `ReturnGPUCountFromGres` returns the value that `ParseFloat` gives
for the field of index 1 when `k = 2` and of index 2 when `k >= 3` (0 on a syntax
error); this is the last field when `k <= 3`. -/
theorem count_field_position (d : List Char) (pre post : List (List Char)) (v : List Char)
    (hsplit : Split d ',' = pre ++ v :: post)
    (hpre : ∀ e ∈ pre, regexpMatch "gpu:*" e = false)
    (hv : regexpMatch "gpu:*" v = true) (hk : 2 ≤ (Split v ':').length) :
    ∃ f, (Split v ':')[min ((Split v ':').length - 1) 2]? = some f ∧
      ReturnGPUCountFromGres d = some (ParseFloat f).1 ∧
      ((Split v ':').length ≤ 3 → (Split v ':').getLast? = some f) := by
  by_cases h2 : (Split v ':').length > 2
  · have hidx : min ((Split v ':').length - 1) 2 = 2 := by omega
    have hget : (Split v ':')[2]? = some ((Split v ':')[2]) :=
      List.getElem?_eq_getElem (by omega)
    have hf : gresCountField v = some ((Split v ':')[2]) := by
      unfold gresCountField
      rw [if_pos h2, hget]
    refine ⟨(Split v ':')[2], by rw [hidx, hget],
      gres_first_match d pre post v _ hsplit hpre hv hf, ?_⟩
    intro h3
    rw [List.getLast?_eq_getElem?, ← hget]
    congr 1
    omega
  · have hlen : (Split v ':').length = 2 := by omega
    have hidx : min ((Split v ':').length - 1) 2 = 1 := by omega
    have hget : (Split v ':')[1]? = some ((Split v ':')[1]) :=
      List.getElem?_eq_getElem (by omega)
    have hf : gresCountField v = some ((Split v ':')[1]) := by
      unfold gresCountField
      rw [if_neg h2, hget]
    refine ⟨(Split v ':')[1], by rw [hidx, hget],
      gres_first_match d pre post v _ hsplit hpre hv hf, ?_⟩
    intro _
    rw [List.getLast?_eq_getElem?, ← hget]
    congr 1
    omega

/-- Witness of `count_field_position`: in `cpu:16,gpu:v100:4(S:0-1)` the matched entry
has four fields, the field read is `4(S`, of index 2, and the result is 0. -/
theorem count_field_position_witness :
    ∃ f, (Split "gpu:v100:4(S:0-1)".toList ':')[min
        ((Split "gpu:v100:4(S:0-1)".toList ':').length - 1) 2]? = some f ∧
      ReturnGPUCountFromGres "cpu:16,gpu:v100:4(S:0-1)".toList = some (ParseFloat f).1 ∧
      ((Split "gpu:v100:4(S:0-1)".toList ':').length ≤ 3 →
        (Split "gpu:v100:4(S:0-1)".toList ':').getLast? = some f) :=
  count_field_position "cpu:16,gpu:v100:4(S:0-1)".toList ["cpu:16".toList] []
    "gpu:v100:4(S:0-1)".toList (by decide) (by decide) (by decide) (by decide)

theorem ParseFloat_three : ParseFloat "3".toList = (F64.fin 3, none) := by
  have := ParseFloat_repr 3 (by norm_num)
  simpa using this

/-- Counterexample to claim C13 as stated: the entry `gpu:a:2:3` has four fields, its
last field is `3`, whose value is 3, and `ReturnGPUCountFromGres` returns 2, the value
of the field of index 2. -/
theorem count_not_last_field :
    (Split "gpu:a:2:3".toList ':').length = 4 ∧
    (Split "gpu:a:2:3".toList ':').getLast? = some "3".toList ∧
    (ParseFloat "3".toList).1 = F64.fin 3 ∧
    ReturnGPUCountFromGres "gpu:a:2:3".toList = some (F64.fin 2) ∧
    ReturnGPUCountFromGres "gpu:a:2:3".toList ≠ some (F64.fin 3) := by
  have h : ReturnGPUCountFromGres "gpu:a:2:3".toList = some (F64.fin 2) := by
    rw [gres_first_match "gpu:a:2:3".toList [] [] "gpu:a:2:3".toList "2".toList
      (by decide) (by decide) (by decide) (by decide), ParseFloat_two]
  refine ⟨by decide, by decide, by rw [ParseFloat_three], h, ?_⟩
  rw [h]
  intro e
  injection e with e
  injection e with e
  norm_num at e

theorem gresLoop_append_of_match (x : F64) (A B : List (List Char))
    (h : ∃ e ∈ A, regexpMatch "gpu:*" e = true) : gresLoop x (A ++ B) = gresLoop x A := by
  induction A with
  | nil => obtain ⟨e, he, -⟩ := h; cases he
  | cons a as ih =>
    by_cases ha : regexpMatch "gpu:*" a = true
    · simp [gresLoop, ha]
    · have ha' : regexpMatch "gpu:*" a = false := by simpa using ha
      obtain ⟨e, he, hm⟩ := h
      rcases List.mem_cons.mp he with rfl | he
      · exact absurd hm ha
      · simp only [List.cons_append, gresLoop, ha', Bool.false_eq_true, if_false]
        exact ih ⟨e, he, hm⟩

theorem tresLoop_append_of_match (x : F64) (A B : List (List Char))
    (h : ∃ e ∈ A, regexpMatch "gres/gpu=*" e = true) : tresLoop x (A ++ B) = tresLoop x A := by
  induction A with
  | nil => obtain ⟨e, he, -⟩ := h; cases he
  | cons a as ih =>
    by_cases ha : regexpMatch "gres/gpu=*" a = true
    · simp [tresLoop, ha]
    · have ha' : regexpMatch "gres/gpu=*" a = false := by simpa using ha
      obtain ⟨e, he, hm⟩ := h
      rcases List.mem_cons.mp he with rfl | he
      · exact absurd hm ha
      · simp only [List.cons_append, tresLoop, ha', Bool.false_eq_true, if_false]
        exact ih ⟨e, he, hm⟩

/-- Claim C14: the first match wins in the node parser: for every descriptor `d` one of
whose comma-separated entries is matched, and every string `s`,
`ReturnGPUCountFromGres (d + "," + s) = ReturnGPUCountFromGres d`. -/
theorem gres_first_match_wins (d s : List Char)
    (h : ∃ e ∈ Split d ',', regexpMatch "gpu:*" e = true) :
    ReturnGPUCountFromGres (d ++ ',' :: s) = ReturnGPUCountFromGres d := by
  unfold ReturnGPUCountFromGres Split
  rw [splitBy_append _ d s ',' (by simp)]
  exact gresLoop_append_of_match _ _ _ h

/-- Witness of `gres_first_match_wins`: `gpu:2,gpu:3` yields 2, as `gpu:2` does. -/
theorem gres_first_match_wins_witness :
    ReturnGPUCountFromGres "gpu:2,gpu:3".toList = ReturnGPUCountFromGres "gpu:2".toList ∧
    ReturnGPUCountFromGres "gpu:2".toList = some (F64.fin 2) := by
  refine ⟨gres_first_match_wins "gpu:2".toList "gpu:3".toList
    ⟨"gpu:2".toList, by decide, by decide⟩, ?_⟩
  rw [gres_first_match "gpu:2".toList [] [] "gpu:2".toList "2".toList
    (by decide) (by decide) (by decide) (by decide), ParseFloat_two]

/-- Claim C15: the first match wins in the job parser: for every TRES line `l` one of
whose comma-separated entries is matched, and every string `s`,
`ParseAllocTRES (l + "," + s) = ParseAllocTRES l`. -/
theorem tres_first_match_wins (l s : List Char)
    (h : ∃ e ∈ Split l ',', regexpMatch "gres/gpu=*" e = true) :
    ParseAllocTRES (l ++ ',' :: s) = ParseAllocTRES l := by
  unfold ParseAllocTRES Split
  rw [splitBy_append _ l s ',' (by simp)]
  exact tresLoop_append_of_match _ _ _ h

/-- Witness of `tres_first_match_wins`: `gres/gpu=2,gres/gpu:a100=2` yields 2, as
`gres/gpu=2` does: the typed entry is not counted a second time. -/
theorem tres_first_match_wins_witness :
    ParseAllocTRES "gres/gpu=2,gres/gpu:a100=2".toList = ParseAllocTRES "gres/gpu=2".toList ∧
    ParseAllocTRES "gres/gpu=2".toList = some (F64.fin 2) := by
  refine ⟨tres_first_match_wins "gres/gpu=2".toList "gres/gpu:a100=2".toList
    ⟨"gres/gpu=2".toList, by decide, by decide⟩, ?_⟩
  rw [tres_first_match "gres/gpu=2".toList [] [] "gres/gpu=2".toList "2".toList
    (by decide) (by decide) (by decide) (by decide), ParseFloat_two]

/-! ## The claims about the lines of the outputs -/

theorem Trim_quoted (x : List Char) :
    Trim (dquote :: (x ++ [dquote])) dquote = Trim x dquote := by
  have key : ∀ y : List Char,
      List.rdropWhile (fun c => decide (c = dquote))
        (List.dropWhile (fun c => decide (c = dquote)) (y ++ [dquote]))
      = List.rdropWhile (fun c => decide (c = dquote))
        (List.dropWhile (fun c => decide (c = dquote)) y) := by
    intro y
    induction y with
    | nil => simp [List.dropWhile, List.rdropWhile]
    | cons a y ih =>
      by_cases ha : a = dquote
      · simp only [List.cons_append, List.dropWhile, ha, decide_True]
        exact ih
      · simp only [List.cons_append, List.dropWhile, ha, decide_False]
        show List.rdropWhile (fun c => decide (c = dquote)) ((a :: y) ++ [dquote]) = _
        rw [List.rdropWhile_concat_pos _ _ _ (by simp)]
  unfold Trim
  simp only [List.dropWhile, decide_True]
  exact key x

theorem jobLineCount_quoted (x : List Char) :
    jobLineCount (dquote :: (x ++ [dquote])) = jobLineCount x := by
  unfold jobLineCount
  rw [Trim_quoted]

theorem nonEmptyLines_quoteLines (output : List Char) :
    nonEmptyLines (quoteLines output)
      = (nonEmptyLines output).map (fun x => dquote :: (x ++ [dquote])) := by
  have hq : ∀ L : List (List Char),
      (L.map (fun x => if x.isEmpty then x else dquote :: (x ++ [dquote]))).filter
        (fun l => !l.isEmpty)
      = (L.filter (fun l => !l.isEmpty)).map (fun x => dquote :: (x ++ [dquote])) := by
    intro L
    induction L with
    | nil => rfl
    | cons a L ih =>
      cases a with
      | nil =>
        rw [List.map_cons, List.filter_cons_of_neg (by simp), List.filter_cons_of_neg (by simp)]
        exact ih
      | cons c cs =>
        rw [List.map_cons, List.filter_cons_of_pos (by rfl), List.filter_cons_of_pos (by rfl),
          List.map_cons, ih]
        rfl
  have hnl : ∀ l ∈ (Split output newline).map
      (fun x => if x.isEmpty then x else dquote :: (x ++ [dquote])), newline ∉ l := by
    intro l hl
    obtain ⟨x, hx, rfl⟩ := List.mem_map.mp hl
    have hxn := Split_lines_no_newline output x hx
    split
    · exact hxn
    · intro hmem
      rcases List.mem_cons.mp hmem with h | h
      · revert h; decide
      · rcases List.mem_append.mp h with h | h
        · exact hxn h
        · rw [List.mem_singleton] at h
          revert h; decide
  unfold quoteLines
  rw [nonEmptyLines_joinLines _ hnl, hq]
  rfl

theorem foldlM_map_quoted (items : List (List Char)) (acc : F64) :
    List.foldlM (fun acc x => (jobLineCount x).map (F64.add acc)) acc
        (items.map (fun x => dquote :: (x ++ [dquote])))
      = List.foldlM (fun acc x => (jobLineCount x).map (F64.add acc)) acc items := by
  induction items generalizing acc with
  | nil => rfl
  | cons x xs ih =>
    rw [List.map_cons, List.foldlM_cons, List.foldlM_cons, jobLineCount_quoted]
    cases jobLineCount x with
    | none => rfl
    | some g => exact ih _

/-- Claim C16: for every `squeue` output, replacing each non-empty line `x` by `x`
between two double quotes leaves the result of `ParseAllocatedGPUs` unchanged. -/
theorem quotes_do_not_matter (output : List Char) :
    ParseAllocatedGPUs (quoteLines output) = ParseAllocatedGPUs output := by
  rw [ParseAllocatedGPUs_lines, ParseAllocatedGPUs_lines, nonEmptyLines_quoteLines]
  unfold sumCounts
  exact foldlM_map_quoted _ _

theorem Split_length_of_mem (s : List Char) (sep : Char) (h : sep ∈ s) :
    2 ≤ (Split s sep).length := by
  unfold Split
  induction s with
  | nil => cases h
  | cons c cs ih =>
    by_cases hc : c = sep
    · have := splitBy_ne_nil (fun c => decide (c = sep)) cs
      simp only [splitBy, hc, decide_True, if_true, List.length_cons]
      have : 0 < (splitBy (fun c => decide (c = sep)) cs).length := List.length_pos.mpr this
      omega
    · have hmem : sep ∈ cs := by
        rcases List.mem_cons.mp h with h | h
        · exact absurd h.symm hc
        · exact h
      have := ih hmem
      simp only [splitBy, hc, decide_False, Bool.false_eq_true, if_false]
      cases hs : splitBy (fun c => decide (c = sep)) cs with
      | nil => rw [hs] at this; simp at this
      | cons f fs => rw [hs] at this; simpa using this

theorem gresLoop_isSome (x : F64) (es : List (List Char))
    (h : ∀ e ∈ es, "gpu".toList <:+: e → ':' ∈ e) : ∃ g, gresLoop x es = some g := by
  induction es with
  | nil => exact ⟨x, rfl⟩
  | cons v vs ih =>
    by_cases hv : regexpMatch "gpu:*" v = true
    · have hlen := Split_length_of_mem v ':'
        (h v (List.mem_cons_self _ _) ((regexpMatch_gpu v).mp hv))
      unfold gresLoop
      rw [if_pos hv]
      split
      · rw [List.getElem?_eq_getElem (by omega)]
        exact ⟨_, rfl⟩
      · rw [List.getElem?_eq_getElem (by omega)]
        exact ⟨_, rfl⟩
    · have hv' : regexpMatch "gpu:*" v = false := by simpa using hv
      unfold gresLoop
      rw [hv']
      simp only [Bool.false_eq_true, if_false]
      exact ih (fun e he => h e (List.mem_cons_of_mem _ he))

/-- Claim C17: for every `sinfo` output in which every non-empty line, with its double
quotes trimmed, has at least two whitespace-separated fields, and in which every
comma-separated entry of the second field of each such line that contains `gpu` also
contains a `:`, `ParseTotalGPUs` returns a value: no index is out of range. -/
theorem total_does_not_panic (output : List Char)
    (h1 : ∀ line ∈ Split output newline, line ≠ [] →
      2 ≤ (Fields (Trim line dquote)).length)
    (h2 : ∀ line ∈ Split output newline, line ≠ [] →
      ∀ e ∈ Split (((Fields (Trim line dquote))[1]?).getD []) ',',
        "gpu".toList <:+: e → ':' ∈ e) :
    ∃ r, ParseTotalGPUs output = some r := by
  rw [ParseTotalGPUs_lines]
  unfold sumCounts
  apply foldlM_isSome
  intro x hx
  unfold nonEmptyLines at hx
  obtain ⟨hmem, hne⟩ := List.mem_filter.mp hx
  have hne' : x ≠ [] := by
    intro h; subst h; simp at hne
  have hlen := h1 x hmem hne'
  have hd : (Fields (Trim x dquote))[1]? = some ((Fields (Trim x dquote))[1]) :=
    List.getElem?_eq_getElem (by omega)
  have hg := h2 x hmem hne'
  rw [hd, Option.getD_some] at hg
  rw [nodeLineCount_eq x _ hd]
  exact gresLoop_isSome _ _ hg

/-- Witness of `total_does_not_panic`: three node lines, one of them quoted and one
without GPU; the total is returned. -/
theorem total_does_not_panic_witness :
    (∀ line ∈ Split "n1 gpu:2\n\"n2 gpu:v100:3\"\nn3 (null)\n".toList newline, line ≠ [] →
      2 ≤ (Fields (Trim line dquote)).length) ∧
    (∀ line ∈ Split "n1 gpu:2\n\"n2 gpu:v100:3\"\nn3 (null)\n".toList newline, line ≠ [] →
      ∀ e ∈ Split (((Fields (Trim line dquote))[1]?).getD []) ',',
        "gpu".toList <:+: e → ':' ∈ e) ∧
    ∃ r, ParseTotalGPUs "n1 gpu:2\n\"n2 gpu:v100:3\"\nn3 (null)\n".toList = some r :=
  ⟨by decide, by decide,
   total_does_not_panic "n1 gpu:2\n\"n2 gpu:v100:3\"\nn3 (null)\n".toList
     (by decide) (by decide)⟩

/-! ## The claim about the order of the lines -/

theorem sumCounts_perm (count : List Char → Option F64) (c : List Char → ℕ)
    (ls ls' : List (List Char)) (hp : ls.Perm ls')
    (hn : ∀ l ∈ ls, newline ∉ l)
    (hc : ∀ l ∈ ls, l ≠ [] → count l = some (F64.fin (c l)))
    (hsum : ((ls.filter (fun l => !l.isEmpty)).map c).sum ≤ 2 ^ 53) :
    sumCounts count (nonEmptyLines (joinLines ls')) =
      sumCounts count (nonEmptyLines (joinLines ls)) := by
  have hn' : ∀ l ∈ ls', newline ∉ l := fun l hl => hn l (hp.mem_iff.mpr hl)
  have hpf : (ls.filter (fun l => !l.isEmpty)).Perm (ls'.filter (fun l => !l.isEmpty)) :=
    hp.filter _
  have hsumeq : ((ls'.filter (fun l => !l.isEmpty)).map c).sum
      = ((ls.filter (fun l => !l.isEmpty)).map c).sum :=
    ((hpf.map c).sum_eq).symm
  have hcf : ∀ l ∈ ls.filter (fun l => !l.isEmpty), count l = some (F64.fin (c l)) := by
    intro l hl
    obtain ⟨hmem, hne⟩ := List.mem_filter.mp hl
    exact hc l hmem (by intro h; subst h; simp at hne)
  have hcf' : ∀ l ∈ ls'.filter (fun l => !l.isEmpty), count l = some (F64.fin (c l)) :=
    fun l hl => hcf l (hpf.mem_iff.mpr hl)
  rw [nonEmptyLines_joinLines ls hn, nonEmptyLines_joinLines ls' hn',
    sumCounts_natCounts count c _ hcf hsum,
    sumCounts_natCounts count c _ hcf' (by rw [hsumeq]; exact hsum), hsumeq]

theorem sumCounts_concat (count : List Char → Option F64) (c : List Char → ℕ)
    (a b : List Char)
    (hc : ∀ l ∈ nonEmptyLines a ++ nonEmptyLines b, count l = some (F64.fin (c l)))
    (hsum : ((nonEmptyLines a ++ nonEmptyLines b).map c).sum ≤ 2 ^ 53) :
    ∃ ta tb, sumCounts count (nonEmptyLines (a ++ [newline])) = some ta ∧
      sumCounts count (nonEmptyLines b) = some tb ∧
      sumCounts count (nonEmptyLines (a ++ newline :: b)) = some (F64.add ta tb) := by
  have hs : ((nonEmptyLines a).map c).sum + ((nonEmptyLines b).map c).sum ≤ 2 ^ 53 := by
    rw [List.map_append, List.sum_append] at hsum
    exact hsum
  refine ⟨F64.fin ((((nonEmptyLines a).map c).sum : ℕ) : ℚ),
    F64.fin ((((nonEmptyLines b).map c).sum : ℕ) : ℚ), ?_, ?_, ?_⟩
  · rw [nonEmptyLines_terminated]
    exact sumCounts_natCounts count c _ (fun l hl => hc l (List.mem_append_left _ hl)) (by omega)
  · exact sumCounts_natCounts count c _ (fun l hl => hc l (List.mem_append_right _ hl))
      (by omega)
  · rw [nonEmptyLines_append, sumCounts_natCounts count c _ hc hsum, add_natCast _ _ hs,
      List.map_append, List.sum_append]

/-- Claim C18, amended: when every count read from a line is a natural number and the
sum of the counts is at most `2 ^ 53` (so that the `float64` additions are exact),
permuting the lines of the `sinfo` output does not change `ParseTotalGPUs`, permuting
the lines of the `squeue` output does not change `ParseAllocatedGPUs`, and the total
of a newline-terminated listing followed by a second listing is the sum of the two
totals. -/
theorem totals_order_independent :
    (∀ (ls ls' : List (List Char)) (c : List Char → ℕ), ls.Perm ls' →
      (∀ l ∈ ls, newline ∉ l) →
      (∀ l ∈ ls, l ≠ [] → nodeLineCount l = some (F64.fin (c l))) →
      ((ls.filter (fun l => !l.isEmpty)).map c).sum ≤ 2 ^ 53 →
      ParseTotalGPUs (joinLines ls') = ParseTotalGPUs (joinLines ls)) ∧
    (∀ (ls ls' : List (List Char)) (c : List Char → ℕ), ls.Perm ls' →
      (∀ l ∈ ls, newline ∉ l) →
      (∀ l ∈ ls, l ≠ [] → jobLineCount l = some (F64.fin (c l))) →
      ((ls.filter (fun l => !l.isEmpty)).map c).sum ≤ 2 ^ 53 →
      ParseAllocatedGPUs (joinLines ls') = ParseAllocatedGPUs (joinLines ls)) ∧
    (∀ (a b : List Char) (c : List Char → ℕ),
      (∀ l ∈ nonEmptyLines a ++ nonEmptyLines b, nodeLineCount l = some (F64.fin (c l))) →
      ((nonEmptyLines a ++ nonEmptyLines b).map c).sum ≤ 2 ^ 53 →
      ∃ ta tb, ParseTotalGPUs (a ++ [newline]) = some ta ∧ ParseTotalGPUs b = some tb ∧
        ParseTotalGPUs (a ++ newline :: b) = some (F64.add ta tb)) ∧
    (∀ (a b : List Char) (c : List Char → ℕ),
      (∀ l ∈ nonEmptyLines a ++ nonEmptyLines b, jobLineCount l = some (F64.fin (c l))) →
      ((nonEmptyLines a ++ nonEmptyLines b).map c).sum ≤ 2 ^ 53 →
      ∃ ta tb, ParseAllocatedGPUs (a ++ [newline]) = some ta ∧
        ParseAllocatedGPUs b = some tb ∧
        ParseAllocatedGPUs (a ++ newline :: b) = some (F64.add ta tb)) := by
  refine ⟨?_, ?_, ?_, ?_⟩
  · intro ls ls' c hp hn hc hsum
    rw [ParseTotalGPUs_lines, ParseTotalGPUs_lines]
    exact sumCounts_perm nodeLineCount c ls ls' hp hn hc hsum
  · intro ls ls' c hp hn hc hsum
    rw [ParseAllocatedGPUs_lines, ParseAllocatedGPUs_lines]
    exact sumCounts_perm jobLineCount c ls ls' hp hn hc hsum
  · intro a b c hc hsum
    simp only [ParseTotalGPUs_lines]
    exact sumCounts_concat nodeLineCount c a b hc hsum
  · intro a b c hc hsum
    simp only [ParseAllocatedGPUs_lines]
    exact sumCounts_concat jobLineCount c a b hc hsum

theorem nodeLine_gpu_nat (line d f : List Char) (n : ℕ) (hn : n ≤ 2 ^ 53)
    (hd : (Fields (Trim line dquote))[1]? = some d) (hs : Split d ',' = [d])
    (hm : regexpMatch "gpu:*" d = true) (hf : gresCountField d = some f)
    (hr : f = (Nat.repr n).toList) :
    nodeLineCount line = some (F64.fin (n : ℚ)) := by
  rw [nodeLineCount_eq line d hd, gres_first_match d [] [] d f hs (by simp) hm hf,
    ParseFloat_small n hn f hr]

/-- Witness of `totals_order_independent`: two node lines with 2 and 3 GPUs give the
same total in both orders, and the total of the first listing followed by the second
is the sum of the two totals. -/
theorem totals_order_independent_witness :
    ParseTotalGPUs "n2 gpu:3\nn1 gpu:2".toList = ParseTotalGPUs "n1 gpu:2\nn2 gpu:3".toList ∧
    ∃ ta tb, ParseTotalGPUs "n1 gpu:2\n".toList = some ta ∧
      ParseTotalGPUs "n2 gpu:3\n".toList = some tb ∧
      ParseTotalGPUs "n1 gpu:2\nn2 gpu:3\n".toList = some (F64.add ta tb) := by
  have c1 : nodeLineCount "n1 gpu:2".toList = some (F64.fin ((2 : ℕ) : ℚ)) :=
    nodeLine_gpu_nat _ "gpu:2".toList "2".toList 2 (by norm_num) (by decide) (by decide)
      (by decide) (by decide) (by decide)
  have c2 : nodeLineCount "n2 gpu:3".toList = some (F64.fin ((3 : ℕ) : ℚ)) :=
    nodeLine_gpu_nat _ "gpu:3".toList "3".toList 3 (by norm_num) (by decide) (by decide)
      (by decide) (by decide) (by decide)
  have hc : ∀ l ∈ ["n1 gpu:2".toList, "n2 gpu:3".toList],
      nodeLineCount l = some (F64.fin
        (((fun l : List Char => if l = "n1 gpu:2".toList then 2 else 3) l : ℕ) : ℚ)) := by
    intro l hl
    simp only [List.mem_cons, List.mem_singleton, List.not_mem_nil, or_false] at hl
    rcases hl with rfl | rfl
    · rw [c1]; rfl
    · rw [c2]; rfl
  constructor
  · exact totals_order_independent.1 ["n1 gpu:2".toList, "n2 gpu:3".toList]
      ["n2 gpu:3".toList, "n1 gpu:2".toList]
      (fun l => if l = "n1 gpu:2".toList then 2 else 3)
      (List.Perm.swap _ _ _) (by decide) (fun l hl _ => hc l hl) (by decide)
  · exact totals_order_independent.2.2.1 "n1 gpu:2".toList "n2 gpu:3\n".toList
      (fun l => if l = "n1 gpu:2".toList then 2 else 3)
      (by
        rw [show nonEmptyLines "n1 gpu:2".toList ++ nonEmptyLines "n2 gpu:3\n".toList
          = ["n1 gpu:2".toList, "n2 gpu:3".toList] by decide]
        exact hc)
      (by decide)

theorem add_big_one :
    F64.add (F64.fin 9007199254740992) (F64.fin 1) = F64.fin 9007199254740992 := by
  simp only [F64.add]
  have e : (9007199254740992 : ℚ) + 1 = 9007199254740993 := by norm_num
  rw [e, roundF64_tie]

theorem add_two_big :
    F64.add (F64.fin 2) (F64.fin 9007199254740992) = F64.fin 9007199254740994 := by
  simp only [F64.add]
  have e : (2 : ℚ) + 9007199254740992 = 9007199254740994 := by norm_num
  rw [e, roundF64_even]

/-- Counterexample to claim C18 as stated: the counts 9007199254740992, 1 and 1 are
natural numbers, and the two orders of the same three node lines give the totals
9007199254740992 and 9007199254740994. -/
theorem total_depends_on_order :
    ["n1 gpu:9007199254740992".toList, "n2 gpu:1".toList, "n3 gpu:1".toList].Perm
      ["n2 gpu:1".toList, "n3 gpu:1".toList, "n1 gpu:9007199254740992".toList] ∧
    nodeLineCount "n1 gpu:9007199254740992".toList = some (F64.fin 9007199254740992) ∧
    nodeLineCount "n2 gpu:1".toList = some (F64.fin 1) ∧
    nodeLineCount "n3 gpu:1".toList = some (F64.fin 1) ∧
    ParseTotalGPUs "n1 gpu:9007199254740992\nn2 gpu:1\nn3 gpu:1".toList
      = some (F64.fin 9007199254740992) ∧
    ParseTotalGPUs "n2 gpu:1\nn3 gpu:1\nn1 gpu:9007199254740992".toList
      = some (F64.fin 9007199254740994) ∧
    F64.fin 9007199254740992 ≠ F64.fin 9007199254740994 := by
  have cA : nodeLineCount "n1 gpu:9007199254740992".toList
      = some (F64.fin 9007199254740992) := by
    have := nodeLine_gpu_nat "n1 gpu:9007199254740992".toList "gpu:9007199254740992".toList
      "9007199254740992".toList 9007199254740992 (by norm_num) (by decide) (by decide)
      (by decide) (by decide) (by decide)
    simpa using this
  have cB : nodeLineCount "n2 gpu:1".toList = some (F64.fin 1) := by
    have := nodeLine_gpu_nat "n2 gpu:1".toList "gpu:1".toList "1".toList 1 (by norm_num)
      (by decide) (by decide) (by decide) (by decide) (by decide)
    simpa using this
  have cC : nodeLineCount "n3 gpu:1".toList = some (F64.fin 1) := by
    have := nodeLine_gpu_nat "n3 gpu:1".toList "gpu:1".toList "1".toList 1 (by norm_num)
      (by decide) (by decide) (by decide) (by decide) (by decide)
    simpa using this
  have z1 : F64.add (F64.fin 0) (F64.fin 9007199254740992) = F64.fin 9007199254740992 := by
    have := add_natCast 0 9007199254740992 (by norm_num)
    simpa using this
  have z2 : F64.add (F64.fin 0) (F64.fin 1) = F64.fin 1 := by
    have := add_natCast 0 1 (by norm_num)
    simpa using this
  have z3 : F64.add (F64.fin 1) (F64.fin 1) = F64.fin 2 := by
    have := add_natCast 1 1 (by norm_num)
    norm_num at this
    exact this
  refine ⟨by decide, cA, cB, cC, ?_, ?_, ?_⟩
  · rw [ParseTotalGPUs_lines]
    unfold sumCounts
    rw [show nonEmptyLines "n1 gpu:9007199254740992\nn2 gpu:1\nn3 gpu:1".toList
        = ["n1 gpu:9007199254740992".toList, "n2 gpu:1".toList, "n3 gpu:1".toList] by decide,
      sumFrom_cons nodeLineCount _ _ _ _ cA, z1, sumFrom_cons nodeLineCount _ _ _ _ cB,
      add_big_one, sumFrom_cons nodeLineCount _ _ _ _ cC, add_big_one]
    rfl
  · rw [ParseTotalGPUs_lines]
    unfold sumCounts
    rw [show nonEmptyLines "n2 gpu:1\nn3 gpu:1\nn1 gpu:9007199254740992".toList
        = ["n2 gpu:1".toList, "n3 gpu:1".toList, "n1 gpu:9007199254740992".toList] by decide,
      sumFrom_cons nodeLineCount _ _ _ _ cB, z2, sumFrom_cons nodeLineCount _ _ _ _ cC,
      z3, sumFrom_cons nodeLineCount _ _ _ _ cA, add_two_big]
    rfl
  · intro e
    injection e with e
    norm_num at e

end SlurmGPU
